import Mathlib

/-!
Firebase Cloud Messaging client: a verification development.

The package `fcm` (file `fcm.go`) builds a JSON request from a `Message`, posts
it with the server key and turns the answer into a `Response` or an error.
This file embeds the package in Lean: its types and functions under their Go
names, and beside them the parts of the Go standard library the package runs
on (`encoding/json`, `net/http`, `strconv`), modelled at the level of JSON
documents.

Conventions of the embedding:

* a Go `string` is a Lean `String`, valid UTF-8 text, and `len` is its size in
  UTF-8 bytes; a string that is not valid UTF-8 is outside the embedding;
* a pointer or a slice that may be nil is an `Option`;
* a Go map is the list of its entries in increasing key order;
* the request body is the JSON document `json.Marshal` produces, the response
  body is text, delivered in the pieces the successive `Read` calls return;
* the network is a parameter, a function from the request to its outcome.
-/

namespace Fcm

/-! ## JSON documents -/

/-- A JSON number token, kept as written: sign, integer part, the digits after
the point (when there is one) and the exponent (sign and magnitude, when there
is one). -/
structure NumLit where
  neg : Bool
  int : Nat
  frac : Option (List Nat)
  exp : Option (Bool × Nat)
deriving DecidableEq, Repr

/-- A JSON value. Object members are kept in document order. -/
inductive Json where
  | null
  | bool (b : Bool)
  | num (n : NumLit)
  | str (s : String)
  | arr (xs : List Json)
  | obj (ms : List (String × Json))
deriving Repr

/-- The literal of an integer, as `strconv.AppendInt` writes it. -/
def NumLit.ofInt (n : Int) : NumLit :=
  { neg := decide (n < 0), int := n.natAbs, frac := none, exp := none }

/-- The integer a literal denotes when it is written without fraction and
without exponent (what `strconv.ParseInt` accepts). -/
def NumLit.toInt? (l : NumLit) : Option Int :=
  match l.frac, l.exp with
  | none, none => some (if l.neg then -(l.int : Int) else (l.int : Int))
  | _, _ => none

/-! ## The scanner of `encoding/json` -/

/-- A piece of a string token: a character, or a `\uXXXX` code unit. -/
inductive StrUnit where
  | chr (c : Char)
  | u16 (code : Nat)
deriving DecidableEq, Repr

/-- An open array or object. Finished elements and members are kept newest
first; an object also remembers the key whose value is being read. -/
inductive Frame where
  | arr (done : List Json)
  | obj (done : List (String × Json)) (key : Option String)
deriving Repr

/-- The scanner's position inside the token it is reading. -/
inductive Tok where
  | beginValue
  | beginValueOrEmpty
  | beginStringOrEmpty
  | beginString
  | inString (acc : List StrUnit)
  | inStringEsc (acc : List StrUnit)
  | inStringEscU (acc : List StrUnit) (k : Nat) (code : Nat)
  | neg
  | zero (neg : Bool)
  | int (neg : Bool) (n : Nat)
  | dot (neg : Bool) (n : Nat)
  | dot0 (neg : Bool) (n : Nat) (ds : List Nat)
  | e (neg : Bool) (n : Nat) (ds : Option (List Nat))
  | eSign (neg : Bool) (n : Nat) (ds : Option (List Nat)) (eneg : Bool)
  | e0 (neg : Bool) (n : Nat) (ds : Option (List Nat)) (eneg : Bool) (en : Nat)
  | lit (rest : List Char) (v : Json)
  | endValue (v : Json)
deriving Repr

/-- The state of the scanner: the arrays and objects that are open, innermost
first, and the position inside the current token. -/
structure Scanner where
  stack : List Frame
  tok : Tok
deriving Repr

/-- What reading one byte gives: the next state, the end of the top-level
value, or a syntax error. -/
inductive Step where
  | cont (s : Scanner)
  | done (v : Json)
  | error
deriving Repr

/-- The deepest nesting of arrays and objects the scanner accepts. -/
def maxNestingDepth : Nat := 10000

/-- The white space of JSON. -/
def isSpace (c : Char) : Bool :=
  c == ' ' || c == '\t' || c == '\r' || c == '\n'

/-- The value of a decimal digit. -/
def digit? (c : Char) : Option Nat :=
  if '0' ≤ c ∧ c ≤ '9' then some (c.toNat - '0'.toNat) else none

/-- The value of a hexadecimal digit. -/
def hexDigit? (c : Char) : Option Nat :=
  if '0' ≤ c ∧ c ≤ '9' then some (c.toNat - '0'.toNat)
  else if 'a' ≤ c ∧ c ≤ 'f' then some (c.toNat - 'a'.toNat + 10)
  else if 'A' ≤ c ∧ c ≤ 'F' then some (c.toNat - 'A'.toNat + 10)
  else none

/-- The character of a `\u` code unit or surrogate pair; a stray surrogate
gives U+FFFD. -/
def unquoteUnits : List StrUnit → List Char
  | [] => []
  | .chr c :: rest => c :: unquoteUnits rest
  | .u16 hi :: .u16 lo :: rest =>
    if 0xD800 ≤ hi ∧ hi < 0xDC00 then
      if 0xDC00 ≤ lo ∧ lo < 0xE000 then
        Char.ofNat (0x10000 + (hi - 0xD800) * 0x400 + (lo - 0xDC00)) :: unquoteUnits rest
      else '\uFFFD' :: unquoteUnits (.u16 lo :: rest)
    else if 0xDC00 ≤ hi ∧ hi < 0xE000 then '\uFFFD' :: unquoteUnits (.u16 lo :: rest)
    else Char.ofNat hi :: unquoteUnits (.u16 lo :: rest)
  | .u16 u :: rest =>
    if 0xD800 ≤ u ∧ u < 0xE000 then '\uFFFD' :: unquoteUnits rest
    else Char.ofNat u :: unquoteUnits rest

/-- The string of a string token, from its pieces kept newest first. -/
def unquote (acc : List StrUnit) : String :=
  String.mk (unquoteUnits acc.reverse)

/-- A value is complete and `c` is the byte after it (`stateEndValue`). -/
def endValue (stack : List Frame) (v : Json) (c : Char) : Step :=
  match stack with
  | [] => .done v
  | .obj done none :: rest =>
    if isSpace c then .cont ⟨stack, .endValue v⟩
    else if c == ':' then
      match v with
      | .str k => .cont ⟨.obj done (some k) :: rest, .beginValue⟩
      | _ => .error
    else .error
  | .obj done (some k) :: rest =>
    if isSpace c then .cont ⟨stack, .endValue v⟩
    else if c == ',' then .cont ⟨.obj ((k, v) :: done) none :: rest, .beginString⟩
    else if c == '}' then
      match rest with
      | [] => .done (.obj ((k, v) :: done).reverse)
      | _ => .cont ⟨rest, .endValue (.obj ((k, v) :: done).reverse)⟩
    else .error
  | .arr done :: rest =>
    if isSpace c then .cont ⟨stack, .endValue v⟩
    else if c == ',' then .cont ⟨.arr (v :: done) :: rest, .beginValue⟩
    else if c == ']' then
      match rest with
      | [] => .done (.arr (v :: done).reverse)
      | _ => .cont ⟨rest, .endValue (.arr (v :: done).reverse)⟩
    else .error

/-- Opens an array or object (`pushParseState`). -/
def push (stack : List Frame) (f : Frame) (t : Tok) : Step :=
  if stack.length + 1 ≤ maxNestingDepth then .cont ⟨f :: stack, t⟩ else .error

/-- The scanner expects a value and reads `c` (`stateBeginValue`). -/
def beginValue (stack : List Frame) (c : Char) : Step :=
  if isSpace c then .cont ⟨stack, .beginValue⟩
  else if c == '{' then push stack (.obj [] none) .beginStringOrEmpty
  else if c == '[' then push stack (.arr []) .beginValueOrEmpty
  else if c == '"' then .cont ⟨stack, .inString []⟩
  else if c == '-' then .cont ⟨stack, .neg⟩
  else if c == '0' then .cont ⟨stack, .zero false⟩
  else if c == 't' then .cont ⟨stack, .lit ['r', 'u', 'e'] (.bool true)⟩
  else if c == 'f' then .cont ⟨stack, .lit ['a', 'l', 's', 'e'] (.bool false)⟩
  else if c == 'n' then .cont ⟨stack, .lit ['u', 'l', 'l'] .null⟩
  else match digit? c with
    | some d => .cont ⟨stack, .int false d⟩
    | none => .error

/-- The scanner expects an object key and reads `c` (`stateBeginString`). -/
def beginString (stack : List Frame) (c : Char) : Step :=
  if isSpace c then .cont ⟨stack, .beginString⟩
  else if c == '"' then .cont ⟨stack, .inString []⟩
  else .error

/-- Closes the array or object opened last while it is still empty. -/
def closeEmpty (stack : List Frame) (v : Json) : Step :=
  match stack with
  | [] => .error
  | [_] => .done v
  | _ :: rest => .cont ⟨rest, .endValue v⟩

/-- One step of the scanner: the state after reading `c`. -/
def Scanner.step (s : Scanner) (c : Char) : Step :=
  match s.tok with
  | .beginValue => beginValue s.stack c
  | .beginValueOrEmpty =>
    if isSpace c then .cont s
    else if c == ']' then closeEmpty s.stack (.arr [])
    else beginValue s.stack c
  | .beginStringOrEmpty =>
    if isSpace c then .cont s
    else if c == '}' then closeEmpty s.stack (.obj [])
    else beginString s.stack c
  | .beginString => beginString s.stack c
  | .inString acc =>
    if c == '"' then .cont ⟨s.stack, .endValue (.str (unquote acc))⟩
    else if c == '\\' then .cont ⟨s.stack, .inStringEsc acc⟩
    else if c.toNat < 0x20 then .error
    else .cont ⟨s.stack, .inString (.chr c :: acc)⟩
  | .inStringEsc acc =>
    if c == 'b' then .cont ⟨s.stack, .inString (.chr '\x08' :: acc)⟩
    else if c == 'f' then .cont ⟨s.stack, .inString (.chr '\x0c' :: acc)⟩
    else if c == 'n' then .cont ⟨s.stack, .inString (.chr '\n' :: acc)⟩
    else if c == 'r' then .cont ⟨s.stack, .inString (.chr '\r' :: acc)⟩
    else if c == 't' then .cont ⟨s.stack, .inString (.chr '\t' :: acc)⟩
    else if c == '\\' || c == '/' || c == '"' then .cont ⟨s.stack, .inString (.chr c :: acc)⟩
    else if c == 'u' then .cont ⟨s.stack, .inStringEscU acc 0 0⟩
    else .error
  | .inStringEscU acc k code =>
    match hexDigit? c with
    | none => .error
    | some d =>
      if k < 3 then .cont ⟨s.stack, .inStringEscU acc (k + 1) (code * 16 + d)⟩
      else .cont ⟨s.stack, .inString (.u16 (code * 16 + d) :: acc)⟩
  | .neg =>
    if c == '0' then .cont ⟨s.stack, .zero true⟩
    else match digit? c with
      | some d => .cont ⟨s.stack, .int true d⟩
      | none => .error
  | .zero neg =>
    if c == '.' then .cont ⟨s.stack, .dot neg 0⟩
    else if c == 'e' || c == 'E' then .cont ⟨s.stack, .e neg 0 none⟩
    else endValue s.stack (.num ⟨neg, 0, none, none⟩) c
  | .int neg n =>
    match digit? c with
    | some d => .cont ⟨s.stack, .int neg (n * 10 + d)⟩
    | none =>
      if c == '.' then .cont ⟨s.stack, .dot neg n⟩
      else if c == 'e' || c == 'E' then .cont ⟨s.stack, .e neg n none⟩
      else endValue s.stack (.num ⟨neg, n, none, none⟩) c
  | .dot neg n =>
    match digit? c with
    | some d => .cont ⟨s.stack, .dot0 neg n [d]⟩
    | none => .error
  | .dot0 neg n ds =>
    match digit? c with
    | some d => .cont ⟨s.stack, .dot0 neg n (ds ++ [d])⟩
    | none =>
      if c == 'e' || c == 'E' then .cont ⟨s.stack, .e neg n (some ds)⟩
      else endValue s.stack (.num ⟨neg, n, some ds, none⟩) c
  | .e neg n ds =>
    if c == '+' then .cont ⟨s.stack, .eSign neg n ds false⟩
    else if c == '-' then .cont ⟨s.stack, .eSign neg n ds true⟩
    else match digit? c with
      | some d => .cont ⟨s.stack, .e0 neg n ds false d⟩
      | none => .error
  | .eSign neg n ds eneg =>
    match digit? c with
    | some d => .cont ⟨s.stack, .e0 neg n ds eneg d⟩
    | none => .error
  | .e0 neg n ds eneg en =>
    match digit? c with
    | some d => .cont ⟨s.stack, .e0 neg n ds eneg (en * 10 + d)⟩
    | none => endValue s.stack (.num ⟨neg, n, ds, some (eneg, en)⟩) c
  | .lit rest v =>
    match rest with
    | [] => .error
    | [x] => if c == x then .cont ⟨s.stack, .endValue v⟩ else .error
    | x :: more => if c == x then .cont ⟨s.stack, .lit more v⟩ else .error
  | .endValue v => endValue s.stack v c

/-- Runs the scanner over the bytes of one buffer refill. -/
def Scanner.run (s : Scanner) : List Char → Step
  | [] => .cont s
  | c :: cs =>
    match s.step c with
    | .cont s' => s'.run cs
    | r => r

/-- The scanner before the first byte of a value. -/
def Scanner.init : Scanner := ⟨[], .beginValue⟩

/-! ## float64 -/

/-- A finite float64, the number `(-1)^neg * mant * 2^exp` with `mant` odd, or
a zero (`mant = 0`, `exp = 0`). -/
structure F64 where
  neg : Bool
  mant : Nat
  exp : Int
deriving DecidableEq, Repr

/-- Rounds the quotient `n / d` to the nearest integer, a tie to the even one. -/
def roundHalfEven (n d : Nat) : Nat :=
  let k := n / d
  let r := n % d
  if 2 * r < d then k
  else if d < 2 * r then k + 1
  else if k % 2 = 0 then k else k + 1

/-- Whether `2^e ≤ a / b`. -/
def geTwoPow (a b : Nat) (e : Int) : Bool :=
  if 0 ≤ e then decide (b * 2 ^ e.toNat ≤ a) else decide (b ≤ a * 2 ^ (-e).toNat)

/-- The position of the highest set bit of `n` (zero for `n < 2`), by halving
at most `fuel` times. -/
def bitLog : Nat → Nat → Nat
  | 0, _ => 0
  | fuel + 1, n => if 2 ≤ n then bitLog fuel (n / 2) + 1 else 0

/-- The exponent of the binade of `a / b`, that is `⌊log₂ (a / b)⌋`. -/
def floorLog2 (a b : Nat) : Int :=
  let l : Int := (bitLog a a : Int) - (bitLog b b : Int)
  if geTwoPow a b l then l else l - 1

/-- Moves the factors of two of a mantissa into the exponent. -/
def F64.normalize : Nat → Nat → Int → Nat × Int
  | 0, m, e => (m, e)
  | fuel + 1, m, e =>
    if m ≠ 0 ∧ m % 2 = 0 then F64.normalize fuel (m / 2) (e + 1) else (m, e)

/-- The float64 nearest to `a / b` (ties to even, gradual underflow), for a
quotient within the range of the format. -/
def F64.nearest (neg : Bool) (a b : Nat) : F64 :=
  if a = 0 then ⟨neg, 0, 0⟩
  else
    let p := floorLog2 a b
    let q : Int := if p - 52 < -1074 then -1074 else p - 52
    let m := if 0 ≤ q then roundHalfEven a (b * 2 ^ q.toNat)
             else roundHalfEven (a * 2 ^ (-q).toNat) b
    let r := F64.normalize 64 m q
    if r.1 = 0 then ⟨neg, 0, 0⟩ else ⟨neg, r.1, r.2⟩

/-- The least magnitude that rounds beyond the finite float64s: the midpoint
`2^1024 - 2^970` between the largest of them and `2^1024`. -/
@[irreducible]
def F64.overflow : Nat := 2 ^ 1024 - 2 ^ 970

/-- The digits of a literal as one natural number, and its power of ten. -/
def NumLit.scaled (l : NumLit) : Nat × Int :=
  let ds := l.frac.getD []
  let d := ds.foldl (fun acc x => acc * 10 + x) l.int
  let e : Int := match l.exp with
    | none => 0
    | some (true, n) => -(n : Int)
    | some (false, n) => (n : Int)
  (d, e - ds.length)

/-- The float64 a literal denotes (`strconv.ParseFloat`); none when it is out of
range. -/
def F64.ofDecimal (l : NumLit) : Option F64 :=
  let (d, e) := l.scaled
  let a := if 0 ≤ e then d * 10 ^ e.toNat else d
  let b := if 0 ≤ e then 1 else 10 ^ (-e).toNat
  if b * F64.overflow ≤ a then none else some (F64.nearest l.neg a b)

/-- The float64 nearest to an integer. -/
def F64.ofInt (n : Int) : F64 := F64.nearest (decide (n < 0)) n.natAbs 1

/-- The number a float64 stands for. -/
def F64.toRat (x : F64) : ℚ :=
  (if x.neg then -1 else 1) * ((x.mant : ℚ) * (2 : ℚ) ^ x.exp)

/-- The finite values of the float64 format: a mantissa of at most 53 bits, an
exponent from -1074 on, and a magnitude below `2^1024`. -/
def F64.IsFloat64 (x : F64) : Prop :=
  x.mant < 2 ^ 53 ∧ -1074 ≤ x.exp ∧ (x.mant : ℚ) * (2 : ℚ) ^ x.exp < 2 ^ 1024

/-- Whether `x` is a float64 nearest to the integer `n`: no float64 is nearer. -/
def NearestFloat64 (n : Int) (x : F64) : Prop :=
  x.IsFloat64 ∧ ∀ y : F64, y.IsFloat64 → |x.toRat - n| ≤ |y.toRat - n|

/-- Whether `10^e ≤ a / b`. -/
def geTenPow (a b : Nat) (e : Int) : Bool :=
  if 0 ≤ e then decide (b * 10 ^ e.toNat ≤ a) else decide (b ≤ a * 10 ^ (-e).toNat)

/-- The position of the first decimal digit of `n` (zero for `n < 10`), by
dividing by ten at most `fuel` times. -/
def decLog : Nat → Nat → Nat
  | 0, _ => 0
  | fuel + 1, n => if 10 ≤ n then decLog fuel (n / 10) + 1 else 0

/-- The decimal digits of `n`, the last one first, by dividing by ten at most
`fuel` times. -/
def decDigits : Nat → Nat → List Nat
  | 0, _ => []
  | fuel + 1, n => if n = 0 then [] else n % 10 :: decDigits fuel (n / 10)

/-- The decimal exponent of the first digit of `a / b`, `⌊log₁₀ (a / b)⌋`. -/
def floorLog10 (a b : Nat) : Int :=
  let l : Int := (decLog a a : Int) - (decLog b b : Int)
  if geTenPow a b (l + 1) then l + 1 else if geTenPow a b l then l else l - 1

/-- Drops the zeros that end a digit count `c * 10^s`. -/
def stripZeros : Nat → Nat → Int → Nat × Int
  | 0, c, s => (c, s)
  | fuel + 1, c, s =>
    if c ≠ 0 ∧ c % 10 = 0 then stripZeros fuel (c / 10) (s + 1) else (c, s)

/-- The literal of `c * 10^s` in the `%e` form (`useE`) or the `%f` form of
`strconv.AppendFloat`. -/
def decimalLit (neg useE : Bool) (c : Nat) (s : Int) : NumLit :=
  let (c, s) := stripZeros 400 c s
  let ds := (decDigits c c).reverse
  let dp : Int := ds.length + s
  if useE then
    let e := dp - 1
    { neg := neg, int := ds.headD 0,
      frac := if ds.tail.isEmpty then none else some ds.tail,
      exp := some (decide (e < 0), e.natAbs) }
  else if dp ≤ 0 then
    { neg := neg, int := 0, frac := some (List.replicate (-dp).toNat 0 ++ ds), exp := none }
  else if (ds.length : Int) ≤ dp then
    { neg := neg, int := c * 10 ^ s.toNat, frac := none, exp := none }
  else
    { neg := neg, int := (ds.take dp.toNat).foldl (fun acc x => acc * 10 + x) 0,
      frac := some (ds.drop dp.toNat), exp := none }

/-- The decimals with `nd` digits next to `a / b`, the nearer one first. -/
def digitCandidates (a b : Nat) (nd : Nat) : List (Nat × Int) :=
  let s : Int := floorLog10 a b - nd + 1
  let n := if 0 ≤ s then a else a * 10 ^ (-s).toNat
  let d := if 0 ≤ s then b * 10 ^ s.toNat else b
  let lo := n / d
  let r := n % d
  if r = 0 then [(lo, s)]
  else if 2 * r < d then [(lo, s), (lo + 1, s)]
  else if d < 2 * r then [(lo + 1, s), (lo, s)]
  else if lo % 2 = 0 then [(lo, s), (lo + 1, s)] else [(lo + 1, s), (lo, s)]

/-- The literals `strconv.AppendFloat` may choose for `x`, fewest digits first. -/
def F64.candidates (x : F64) : List NumLit :=
  if x.mant = 0 then [⟨x.neg, 0, none, none⟩]
  else
    let a := if 0 ≤ x.exp then x.mant * 2 ^ x.exp.toNat else x.mant
    let b := if 0 ≤ x.exp then 1 else 2 ^ (-x.exp).toNat
    let useE := decide (a * 2 ^ 72 < b * 4722366482869645) || geTenPow a b 21
    ((List.range 17).flatMap (fun i => digitCandidates a b (i + 1))).map
      (fun cs => decimalLit x.neg useE cs.1 cs.2)

/-- The literal `json.Marshal` writes for a float64: the shortest decimal that
reads back as `x`. -/
def F64.format (x : F64) : Option NumLit :=
  x.candidates.find? (fun l => decide (F64.ofDecimal l = some x))

deriving instance DecidableEq for Except

/-! ## Reading one JSON value from a stream (`json.Decoder`) -/

/-- A response body as a stream: the pieces the successive `Read` calls return
and how the stream ends, with `io.EOF` (none) or with a read error. -/
structure Body where
  chunks : List String
  err : Option String
deriving DecidableEq, Repr

/-- The pieces of a text put together. -/
def concat : List String → String
  | [] => ""
  | c :: cs => c ++ concat cs

/-- The whole text of a body. -/
def Body.text (b : Body) : String := concat b.chunks

/-- Why `Decode` failed. -/
inductive DecodeError where
  | syntax_
  | unexpectedEOF
  | eof
  | read (msg : String)
  | typeMismatch
deriving DecidableEq, Repr

/-- Reads the next value of the stream (`Decoder.readValue`): scans each piece
as it arrives and stops at the end of the value or at the first offending
byte. Returns the text read so far with the value. At the end of the stream a
value that only lacks its delimiter is complete. -/
def readValue (s : Scanner) (buf : String) :
    List String → Option String → String × Except DecodeError Json
  | [], some e => (buf, .error (.read e))
  | [], none =>
    match s.step ' ' with
    | .done v => (buf, .ok v)
    | _ => (buf, .error (if buf.toList.all isSpace then .eof else .unexpectedEOF))
  | c :: cs, err =>
    match s.run c.toList with
    | .done v => (buf ++ c, .ok v)
    | .error => (buf ++ c, .error .syntax_)
    | .cont s' => readValue s' (buf ++ c) cs err

/-! ## Go values -/

/-- A value of type `error`: one of the package's three sentinels, or an error
made by `fmt.Errorf` with its message. -/
inductive GoError where
  | invalidServerKey
  | invalidToken
  | requestFail
  | errorf (msg : String)
deriving DecidableEq, Repr

/-- ErrInvalidServerKey is returned when server key is empty or doesn't have
serverKeyLen length. -/
def ErrInvalidServerKey : GoError := .invalidServerKey

/-- ErrInvalidToken is returned when device token is empty. -/
def ErrInvalidToken : GoError := .invalidToken

/-- ErrRequestFail is returned when server response status is not 200. -/
def ErrRequestFail : GoError := .requestFail

/-- The message of an error (method `Error`). -/
def GoError.Error : GoError → String
  | .invalidServerKey => "fcm: invalid server key"
  | .invalidToken => "fcm: empty token"
  | .requestFail => "fcm: request fail"
  | .errorf msg => msg

/-- Endpoint defines Firebase Cloud Message endpoint. -/
def Endpoint : String := "https://fcm.googleapis.com/fcm/send"

/-- The endpoint requests go to (package variable `fcmEndpoint`). -/
def fcmEndpoint : String := Endpoint

/-- The expected server key length. -/
def serverKeyLen : Nat := 39

/-- Go `len` of a string: the number of bytes of its UTF-8 encoding. -/
def len (s : String) : Nat := s.utf8ByteSize

/-- The bounds of Go `int` on the 64-bit platforms. -/
def inIntRange (n : Int) : Bool := decide (-(2 : Int) ^ 63 ≤ n) && decide (n < (2 : Int) ^ 63)

/-- A value held in an `interface{}`, of the kinds the embedding covers: nil, a
boolean, an integer of any integer type, a finite float64, a string, a slice
`[]interface{}` that is not nil, a map `map[string]interface{}` that is not
nil, or a value `json.Marshal` refuses (a channel, a function, a complex
number, a NaN or an infinity) with the message of its refusal. Values of other
kinds (a `[]byte`, a nil slice or map, a float32, a `json.Number`, a struct, a
pointer) are outside the embedding. -/
inductive GoValue where
  | nil
  | bool (b : Bool)
  | int (n : Int)
  | float64 (x : F64)
  | str (s : String)
  | slice (xs : List GoValue)
  | map (kvs : List (String × GoValue))
  | unsupported (why : String)
deriving Repr

/-- KeyValue type allows add fields to FCM message: `map[string]interface{}`,
nil when none. -/
abbrev KeyValue := Option (List (String × GoValue))

/-- Stores `v` under `k` in the entries of a map, kept in increasing key order. -/
def setKey {α : Type} : List (String × α) → String → α → List (String × α)
  | [], k, v => [(k, v)]
  | (k', v') :: rest, k, v =>
    if k < k' then (k, v) :: (k', v') :: rest
    else if k = k' then (k, v) :: rest
    else (k', v') :: setKey rest k v

/-- Add adds a key-value inside KeyValue struct. Assignment to an entry of a nil
map panics (none). -/
def KeyValue.Add (d : KeyValue) (key : String) (value : GoValue) : Option KeyValue :=
  match d with
  | none => none
  | some kvs => some (some (setKey kvs key value))

/-- Set sets a key-value inside KeyValue struct. Assignment to an entry of a nil
map panics (none). -/
def KeyValue.Set (d : KeyValue) (key : String) (value : GoValue) : Option KeyValue :=
  match d with
  | none => none
  | some kvs => some (some (setKey kvs key value))

/-- Get returns the value of a key inside KeyValue struct, nil when the key is
not there. -/
def KeyValue.Get (d : KeyValue) (key : String) : GoValue :=
  match d with
  | none => .nil
  | some kvs => (kvs.lookup key).getD .nil

/-- Message contains all available parameters for FCM request. -/
structure Message where
  To : String := ""
  RegistrationIDs : Option (List String) := none
  Condition : String := ""
  CollapseKey : String := ""
  Priority : Int := 0
  ContentAvailable : Bool := false
  DelayWhileIdle : Bool := false
  TimeToLive : Int := 0
  RestrictedPackageName : String := ""
  DryRun : Bool := false
  Data : KeyValue := none
  Notification : KeyValue := none
deriving Repr

/-- NewMessage returns a new Message with 'to' property set. -/
def NewMessage (to_ : String) : Message :=
  { To := to_, Data := some [], Notification := some [] }

/-- RegIDs shorthand to set registration_ids field. -/
def Message.RegIDs (m : Message) (tokens : Option (List String)) : Message :=
  { m with RegistrationIDs := tokens }

/-- Result results inside FCM response. -/
structure Result where
  MessageID : String := ""
  RegistrationID : String := ""
  Error : String := ""
deriving DecidableEq, Repr

/-- Response FCM response. `Results` is a slice of pointers: it may be nil and
so may each of its entries. -/
structure Response where
  MulticastID : Int := 0
  Success : Int := 0
  Failure : Int := 0
  CanonicalIDs : Int := 0
  Results : Option (List (Option Result)) := none
deriving DecidableEq, Repr

/-! ## `json.Marshal` on a `Message` -/

mutual
/-- The JSON document of a value held in an `interface{}`. -/
def marshalValue : GoValue → Except String Json
  | .nil => .ok .null
  | .bool b => .ok (.bool b)
  | .int n => .ok (.num (NumLit.ofInt n))
  | .float64 x =>
    match x.format with
    | some l => .ok (.num l)
    | none => .error "json: unsupported value"
  | .str s => .ok (.str s)
  | .slice xs =>
    match marshalList xs with
    | .ok js => .ok (.arr js)
    | .error e => .error e
  | .map kvs =>
    match marshalEntries kvs with
    | .ok ms => .ok (.obj ms)
    | .error e => .error e
  | .unsupported why => .error why
/-- The documents of the elements of a slice. -/
def marshalList : List GoValue → Except String (List Json)
  | [] => .ok []
  | x :: xs =>
    match marshalValue x with
    | .error e => .error e
    | .ok j =>
      match marshalList xs with
      | .error e => .error e
      | .ok js => .ok (j :: js)
/-- The members of the entries of a map. -/
def marshalEntries : List (String × GoValue) → Except String (List (String × Json))
  | [] => .ok []
  | (k, x) :: kvs =>
    match marshalValue x with
    | .error e => .error e
    | .ok j =>
      match marshalEntries kvs with
      | .error e => .error e
      | .ok ms => .ok ((k, j) :: ms)
end

/-- The member of a field tagged `omitempty`: left out when the field is
empty. -/
def omitEmpty (empty : Bool) (name : String) (v : Json) : List (String × Json) :=
  if empty then [] else [(name, v)]

/-- The member of a map field tagged `omitempty`: left out when the map has no
entry, nil or not. -/
def marshalKeyValue (name : String) (d : KeyValue) : Except String (List (String × Json)) :=
  match d with
  | none => .ok []
  | some [] => .ok []
  | some kvs =>
    match marshalEntries kvs with
    | .ok ms => .ok [(name, .obj ms)]
    | .error e => .error e

/-- The members of a message before `data` and `notification`, after the
struct tags of `Message`, in the order of its fields. -/
def Message.plainMembers (m : Message) : List (String × Json) :=
  omitEmpty (m.To == "") "to" (.str m.To)
  ++ omitEmpty ((m.RegistrationIDs.getD []).isEmpty) "registration_ids"
      (.arr ((m.RegistrationIDs.getD []).map Json.str))
  ++ omitEmpty (m.Condition == "") "condition" (.str m.Condition)
  ++ [("collapse_key", .str m.CollapseKey)]
  ++ [("priority", .num (NumLit.ofInt m.Priority))]
  ++ omitEmpty (!m.ContentAvailable) "content_available" (.bool m.ContentAvailable)
  ++ omitEmpty (!m.DelayWhileIdle) "delay_while_idle" (.bool m.DelayWhileIdle)
  ++ omitEmpty (m.TimeToLive == 0) "time_to_live" (.num (NumLit.ofInt m.TimeToLive))
  ++ omitEmpty (m.RestrictedPackageName == "") "restricted_package_name"
      (.str m.RestrictedPackageName)
  ++ omitEmpty (!m.DryRun) "dry_run" (.bool m.DryRun)

/-- The members of the JSON object of a message. -/
def Message.members (m : Message) : Except String (List (String × Json)) :=
  match marshalKeyValue "data" m.Data with
  | .error e => .error e
  | .ok d =>
    match marshalKeyValue "notification" m.Notification with
    | .error e => .error e
    | .ok n => .ok (m.plainMembers ++ d ++ n)

/-- The document `json.Marshal` produces for a `*Message`; a nil pointer gives
`null`. -/
def jsonMarshal (message : Option Message) : Except String Json :=
  match message with
  | none => .ok .null
  | some m =>
    match m.members with
    | .ok ms => .ok (.obj ms)
    | .error e => .error e

/-! ## `Decode` into a `*Response` -/

/-- The code a character has in a field name match: `encoding/json` matches
the key of a member to a field without regard to case, and takes U+017F for an
`s` and U+212A for a `k`. -/
def foldCode (c : Char) : Nat :=
  if 97 ≤ c.toNat ∧ c.toNat ≤ 122 then c.toNat - 32
  else if c.toNat = 0x17F then 83
  else if c.toNat = 0x212A then 75
  else c.toNat

/-- Whether a member key names the field with the JSON name `name`. -/
def equalFold (key name : String) : Bool :=
  key.toList.map foldCode == name.toList.map foldCode

/-- A JSON value decoded into a field of type `string`. -/
def decodeString (cur : String) : Json → Except DecodeError String
  | .str s => .ok s
  | .null => .ok cur
  | _ => .error .typeMismatch

/-- A JSON value decoded into a field of type `int`. -/
def decodeInt (cur : Int) : Json → Except DecodeError Int
  | .num l =>
    match l.toInt? with
    | some n => if inIntRange n then .ok n else .error .typeMismatch
    | none => .error .typeMismatch
  | .null => .ok cur
  | _ => .error .typeMismatch

/-- A JSON value decoded into a field of type `bool`. -/
def decodeBool (cur : Bool) : Json → Except DecodeError Bool
  | .bool b => .ok b
  | .null => .ok cur
  | _ => .error .typeMismatch

/-- One member of an object decoded into a `Result`; a key that names no field
is skipped. -/
def Result.setField (r : Result) (k : String) (v : Json) : Except DecodeError Result :=
  if equalFold k "message_id" then
    match decodeString r.MessageID v with
    | .ok s => .ok { r with MessageID := s }
    | .error e => .error e
  else if equalFold k "registration_id" then
    match decodeString r.RegistrationID v with
    | .ok s => .ok { r with RegistrationID := s }
    | .error e => .error e
  else if equalFold k "error" then
    match decodeString r.Error v with
    | .ok s => .ok { r with Error := s }
    | .error e => .error e
  else .ok r

/-- The members of an object decoded into a `Result`, in document order. -/
def Result.decodeMembers (r : Result) : List (String × Json) → Except DecodeError Result
  | [] => .ok r
  | (k, v) :: ms =>
    match r.setField k v with
    | .ok r' => r'.decodeMembers ms
    | .error e => .error e

/-- A JSON value decoded into a `*Result`: `null` gives nil, an object fills the
result pointed to (a new one when the pointer is nil). -/
def decodeResultPtr (cur : Option Result) : Json → Except DecodeError (Option Result)
  | .null => .ok none
  | .obj ms =>
    match (cur.getD {}).decodeMembers ms with
    | .ok r => .ok (some r)
    | .error e => .error e
  | _ => .error .typeMismatch

/-- The elements of an array decoded into the entries of a slice: element `i`
goes into entry `i` when the slice has one, into a nil pointer otherwise. -/
def decodeResultList : List (Option Result) → List Json →
    Except DecodeError (List (Option Result))
  | _, [] => .ok []
  | cur, x :: xs =>
    match decodeResultPtr (cur.head?.join) x with
    | .error e => .error e
    | .ok r =>
      match decodeResultList cur.tail xs with
      | .error e => .error e
      | .ok rs => .ok (r :: rs)

/-- A JSON value decoded into a field of type `[]*Result`. -/
def decodeResults (cur : Option (List (Option Result))) :
    Json → Except DecodeError (Option (List (Option Result)))
  | .null => .ok none
  | .arr xs =>
    match decodeResultList (cur.getD []) xs with
    | .ok rs => .ok (some rs)
    | .error e => .error e
  | _ => .error .typeMismatch

/-- One member of an object decoded into a `Response`. -/
def Response.setField (r : Response) (k : String) (v : Json) : Except DecodeError Response :=
  if equalFold k "multicast_id" then
    match decodeInt r.MulticastID v with
    | .ok n => .ok { r with MulticastID := n }
    | .error e => .error e
  else if equalFold k "success" then
    match decodeInt r.Success v with
    | .ok n => .ok { r with Success := n }
    | .error e => .error e
  else if equalFold k "failure" then
    match decodeInt r.Failure v with
    | .ok n => .ok { r with Failure := n }
    | .error e => .error e
  else if equalFold k "canonical_ids" then
    match decodeInt r.CanonicalIDs v with
    | .ok n => .ok { r with CanonicalIDs := n }
    | .error e => .error e
  else if equalFold k "results" then
    match decodeResults r.Results v with
    | .ok rs => .ok { r with Results := rs }
    | .error e => .error e
  else .ok r

/-- The members of an object decoded into a `Response`, in document order. -/
def Response.decodeMembers (r : Response) : List (String × Json) → Except DecodeError Response
  | [] => .ok r
  | (k, v) :: ms =>
    match r.setField k v with
    | .ok r' => r'.decodeMembers ms
    | .error e => .error e

/-- A JSON value decoded into a nil `*Response` (`var res *Response`): `null`
leaves the pointer nil, an object gives a new `Response`. -/
def decodeResponsePtr : Json → Except DecodeError (Option Response)
  | .null => .ok none
  | .obj ms =>
    match ({} : Response).decodeMembers ms with
    | .ok r => .ok (some r)
    | .error e => .error e
  | _ => .error .typeMismatch

/-- The call `json.NewDecoder(body).Decode(&res)` with `body` a tee of the
response body: the text the decoder read, and the pointer it decoded or its
error. -/
def decodeBody (b : Body) : String × Except DecodeError (Option Response) :=
  match readValue Scanner.init "" b.chunks b.err with
  | (buf, .error e) => (buf, .error e)
  | (buf, .ok v) => (buf, decodeResponsePtr v)

/-! ## `net/http` -/

/-- An `http.Client`: the package sets its timeout only. -/
structure HttpClient where
  Timeout : Int
deriving DecidableEq, Repr

/-- An outgoing request. -/
structure Request where
  Method : String
  URL : String
  Header : List (String × String)
  Body : Json
deriving Repr

/-- The answer of the server. -/
structure HttpResponse where
  StatusCode : Int
  Body : Body
deriving DecidableEq, Repr

/-- The network: what `Do` gives for a request by a client, an answer or the
message of an error. -/
abbrev Transport := HttpClient → Request → Except String HttpResponse

/-- Whether a byte may stand in a method name (an HTTP token). -/
def isTokenChar (c : Char) : Bool :=
  decide (0x20 < c.toNat) && decide (c.toNat < 0x7f) && !("()<>@,;:\\\"/[]?=\x7b\x7d".toList.contains c)

/-- The call `http.NewRequest`: it refuses a method that is no token and a URL
it cannot parse, of which the model knows the one with a control character. -/
def httpNewRequest (method url : String) (body : Json) : Except String Request :=
  if method.toList.isEmpty || !method.toList.all isTokenChar then
    .error ("net/http: invalid method " ++ method)
  else if url.toList.any (fun c => decide (c.toNat < 0x20) || decide (c.toNat = 0x7f)) then
    .error "net/url: invalid control character in URL"
  else .ok { Method := method, URL := url, Header := [], Body := body }

/-- The method `Header.Add`. -/
def Request.addHeader (r : Request) (key value : String) : Request :=
  { r with Header := r.Header ++ [(key, value)] }

/-! ## The client -/

/-- FCM Firebase Cloud Messaging client. -/
structure FCM where
  ServerKey : String
  client : HttpClient
deriving DecidableEq, Repr

/-- New returns a new FCM client. -/
def New (serverKey : String) (timeout : Int) : Option FCM × Option GoError :=
  if len serverKey ≠ serverKeyLen then (none, some ErrInvalidServerKey)
  else (some { ServerKey := serverKey, client := { Timeout := timeout } }, none)

/-- The request of the specification for a server key and a serialized
message: a POST to the fixed endpoint with the header `Authorization` set to
`key=` and the server key, the header `Content-Type` set to
`application/json`, and the serialized message as body. -/
def specRequest (serverKey : String) (b : Json) : Request :=
  { Method := "POST", URL := "https://fcm.googleapis.com/fcm/send",
    Header := [("Authorization", "key=" ++ serverKey), ("Content-Type", "application/json")],
    Body := b }

/-- What a call of `Send` did: the requests it handed to the transport, in
order, and the pair it returned. -/
structure SendResult where
  sent : List Request
  res : Option Response
  err : Option GoError
deriving Repr

/-- Send sends an http request to FCM endpoint. -/
def Send (f : FCM) (net : Transport) (message : Option Message) : SendResult :=
  match jsonMarshal message with
  | .error err => ⟨[], none, some (.errorf ("fcm: marshal: " ++ err))⟩
  | .ok b =>
    match httpNewRequest "POST" fcmEndpoint b with
    | .error err => ⟨[], none, some (.errorf ("fcm: encoding: " ++ err))⟩
    | .ok req0 =>
      let req := (req0.addHeader "Authorization" ("key=" ++ f.ServerKey)).addHeader
        "Content-Type" "application/json"
      match net f.client req with
      | .error err => ⟨[req], none, some (.errorf ("fcm: do: " ++ err))⟩
      | .ok resp =>
        if resp.StatusCode ≠ 200 then ⟨[req], none, some ErrRequestFail⟩
        else
          match decodeBody resp.Body with
          | (buf, .error _) => ⟨[req], none, some (.errorf ("fcm: " ++ buf))⟩
          | (_, .ok res) => ⟨[req], res, none⟩

/-! ## `Unmarshal` into a `Message` -/

mutual
/-- A JSON value decoded into an empty `interface{}`: a number becomes a
float64, an array a `[]interface{}`, an object a `map[string]interface{}`. -/
def decodeAny : Json → Except DecodeError GoValue
  | .null => .ok .nil
  | .bool b => .ok (.bool b)
  | .num l =>
    match F64.ofDecimal l with
    | some x => .ok (.float64 x)
    | none => .error .typeMismatch
  | .str s => .ok (.str s)
  | .arr xs =>
    match decodeAnyList xs with
    | .ok vs => .ok (.slice vs)
    | .error e => .error e
  | .obj ms =>
    match decodeAnyMembers ms with
    | .ok kvs => .ok (.map (kvs.foldl (fun acc p => setKey acc p.1 p.2) []))
    | .error e => .error e
/-- The elements of an array decoded into empty interfaces. -/
def decodeAnyList : List Json → Except DecodeError (List GoValue)
  | [] => .ok []
  | x :: xs =>
    match decodeAny x with
    | .error e => .error e
    | .ok v =>
      match decodeAnyList xs with
      | .error e => .error e
      | .ok vs => .ok (v :: vs)
/-- The members of an object decoded into empty interfaces, in document
order. -/
def decodeAnyMembers : List (String × Json) → Except DecodeError (List (String × GoValue))
  | [] => .ok []
  | (k, x) :: ms =>
    match decodeAny x with
    | .error e => .error e
    | .ok v =>
      match decodeAnyMembers ms with
      | .error e => .error e
      | .ok kvs => .ok ((k, v) :: kvs)
end

/-- A JSON value decoded into a field of type `KeyValue`: `null` gives the nil
map, an object stores its members, one after the other, in the map of the
field (a new one when it is nil). -/
def decodeKeyValue (cur : KeyValue) : Json → Except DecodeError KeyValue
  | .null => .ok none
  | .obj ms =>
    match decodeAnyMembers ms with
    | .ok kvs => .ok (some (kvs.foldl (fun acc p => setKey acc p.1 p.2) (cur.getD [])))
    | .error e => .error e
  | _ => .error .typeMismatch

/-- The elements of an array decoded into the entries of a `[]string`: element
`i` goes into entry `i` when the slice has one, into an empty string
otherwise. -/
def decodeStringList : List String → List Json → Except DecodeError (List String)
  | _, [] => .ok []
  | cur, x :: xs =>
    match decodeString (cur.headD "") x with
    | .error e => .error e
    | .ok s =>
      match decodeStringList cur.tail xs with
      | .error e => .error e
      | .ok ss => .ok (s :: ss)

/-- A JSON value decoded into a field of type `[]string`. -/
def decodeStrings (cur : Option (List String)) : Json → Except DecodeError (Option (List String))
  | .null => .ok none
  | .arr xs =>
    match decodeStringList (cur.getD []) xs with
    | .ok ss => .ok (some ss)
    | .error e => .error e
  | _ => .error .typeMismatch

/-- One member of an object decoded into a `Message`; a key that names no
field is skipped. -/
def Message.setField (m : Message) (k : String) (v : Json) : Except DecodeError Message :=
  if equalFold k "to" then
    match decodeString m.To v with
    | .ok s => .ok { m with To := s }
    | .error e => .error e
  else if equalFold k "registration_ids" then
    match decodeStrings m.RegistrationIDs v with
    | .ok s => .ok { m with RegistrationIDs := s }
    | .error e => .error e
  else if equalFold k "condition" then
    match decodeString m.Condition v with
    | .ok s => .ok { m with Condition := s }
    | .error e => .error e
  else if equalFold k "collapse_key" then
    match decodeString m.CollapseKey v with
    | .ok s => .ok { m with CollapseKey := s }
    | .error e => .error e
  else if equalFold k "priority" then
    match decodeInt m.Priority v with
    | .ok n => .ok { m with Priority := n }
    | .error e => .error e
  else if equalFold k "content_available" then
    match decodeBool m.ContentAvailable v with
    | .ok b => .ok { m with ContentAvailable := b }
    | .error e => .error e
  else if equalFold k "delay_while_idle" then
    match decodeBool m.DelayWhileIdle v with
    | .ok b => .ok { m with DelayWhileIdle := b }
    | .error e => .error e
  else if equalFold k "time_to_live" then
    match decodeInt m.TimeToLive v with
    | .ok n => .ok { m with TimeToLive := n }
    | .error e => .error e
  else if equalFold k "restricted_package_name" then
    match decodeString m.RestrictedPackageName v with
    | .ok s => .ok { m with RestrictedPackageName := s }
    | .error e => .error e
  else if equalFold k "dry_run" then
    match decodeBool m.DryRun v with
    | .ok b => .ok { m with DryRun := b }
    | .error e => .error e
  else if equalFold k "data" then
    match decodeKeyValue m.Data v with
    | .ok d => .ok { m with Data := d }
    | .error e => .error e
  else if equalFold k "notification" then
    match decodeKeyValue m.Notification v with
    | .ok d => .ok { m with Notification := d }
    | .error e => .error e
  else .ok m

/-- The members of an object decoded into a `Message`, in document order. -/
def Message.decodeMembers (m : Message) : List (String × Json) → Except DecodeError Message
  | [] => .ok m
  | (k, v) :: ms =>
    match m.setField k v with
    | .ok m' => m'.decodeMembers ms
    | .error e => .error e

/-- The call `json.Unmarshal` of a document into a zero `Message`. -/
def decodeMessage : Json → Except DecodeError Message
  | .null => .ok {}
  | .obj ms => ({} : Message).decodeMembers ms
  | _ => .error .typeMismatch

/-! ## What a message looks like after the round trip -/

/-- Whether the keys of the entries increase strictly, as the entries of a map
do. -/
def keysIncreasing {α : Type} (kvs : List (String × α)) : Prop :=
  (kvs.map Prod.fst).Pairwise (fun a b => a < b)

mutual
/-- A payload value Go can hold: an integer within the 64-bit integer types,
and the entries of every map in increasing key order. -/
def GoValue.WF : GoValue → Prop
  | .int n => -(2 : Int) ^ 63 ≤ n ∧ n < (2 : Int) ^ 64
  | .slice xs => GoValue.WFList xs
  | .map kvs => keysIncreasing kvs ∧ GoValue.WFEntries kvs
  | _ => True
/-- The elements of a slice are values Go can hold. -/
def GoValue.WFList : List GoValue → Prop
  | [] => True
  | x :: xs => x.WF ∧ GoValue.WFList xs
/-- The values of the entries of a map are values Go can hold. -/
def GoValue.WFEntries : List (String × GoValue) → Prop
  | [] => True
  | (_, x) :: kvs => x.WF ∧ GoValue.WFEntries kvs
end

/-- A map Go can hold. -/
def KeyValue.WF (d : KeyValue) : Prop :=
  keysIncreasing (d.getD []) ∧ GoValue.WFEntries (d.getD [])

/-- A message Go can hold: `Priority` and `TimeToLive` within `int`, and the
two maps well formed. -/
def Message.WF (m : Message) : Prop :=
  inIntRange m.Priority = true ∧ inIntRange m.TimeToLive = true ∧ m.Data.WF ∧
    m.Notification.WF

mutual
/-- The value the decoder gives for the document of a payload value: for an
integer the float64 its literal reads as (`F64.ofInt`), for a slice and a map
the values it gives for their elements; nil, booleans, strings and float64s
as they are. -/
def jsonImage : GoValue → GoValue
  | .nil => .nil
  | .bool b => .bool b
  | .int n => .float64 (F64.ofInt n)
  | .float64 x => .float64 x
  | .str s => .str s
  | .slice xs => .slice (jsonImageList xs)
  | .map kvs => .map (jsonImageEntries kvs)
  | .unsupported why => .unsupported why
/-- The values the decoder gives for the elements of a slice. -/
def jsonImageList : List GoValue → List GoValue
  | [] => []
  | x :: xs => jsonImage x :: jsonImageList xs
/-- The entries the decoder gives for the entries of a map. -/
def jsonImageEntries : List (String × GoValue) → List (String × GoValue)
  | [] => []
  | (k, x) :: kvs => (k, jsonImage x) :: jsonImageEntries kvs
end

mutual
/-- Whether `w` may come back for the payload value `v` sent as JSON: nil, a
boolean, a string and a float64 come back as they are, an integer as a float64
nearest to it, a slice as a slice and a map as a map of what may come back for
their elements, under the same keys. A value `json.Marshal` refuses does not
come back. -/
def IsJsonImage : GoValue → GoValue → Prop
  | .nil, w => w = .nil
  | .bool b, w => w = .bool b
  | .int n, w => ∃ x, w = .float64 x ∧ NearestFloat64 n x
  | .float64 x, w => w = .float64 x
  | .str s, w => w = .str s
  | .slice xs, w => ∃ ys, w = .slice ys ∧ IsJsonImageList xs ys
  | .map kvs, w => ∃ kvs', w = .map kvs' ∧ IsJsonImageEntries kvs kvs'
  | .unsupported _, _ => False
/-- Whether the elements `ys` may come back for the elements `xs`, one for
one. -/
def IsJsonImageList : List GoValue → List GoValue → Prop
  | [], ys => ys = []
  | x :: xs, ys => ∃ y ys', ys = y :: ys' ∧ IsJsonImage x y ∧ IsJsonImageList xs ys'
/-- Whether the entries `kvs'` may come back for the entries `kvs`, one for
one and under the same keys. -/
def IsJsonImageEntries : List (String × GoValue) → List (String × GoValue) → Prop
  | [], kvs' => kvs' = []
  | (k, x) :: kvs, kvs' =>
    ∃ y rest, kvs' = (k, y) :: rest ∧ IsJsonImage x y ∧ IsJsonImageEntries kvs rest
end

/-- The map the decoder gives for a map field: nil for a map without entry,
which is not written. -/
def KeyValue.echo (d : KeyValue) : KeyValue :=
  match d with
  | none => none
  | some [] => none
  | some kvs => some (jsonImageEntries kvs)

/-- The message the decoder gives for the document of a message: the fields
that are written as they are (the strings are valid UTF-8), a slice or map
that is not written as nil. -/
def Message.echo (m : Message) : Message :=
  { m with
    RegistrationIDs := if (m.RegistrationIDs.getD []).isEmpty then none else m.RegistrationIDs
    Data := m.Data.echo
    Notification := m.Notification.echo }

/-- The message of `examples/message/main.go`, with a fixed text: a new
message with a time to live of 25 seconds and three data entries. -/
def exampleMessage : Message :=
  { NewMessage "someDeviceToken" with
    TimeToLive := 25
    Data := some [("message", .str "Hello world!"), ("some-var", .int 1),
      ("title", .str "Title demo")] }

/-- The JSON document of `exampleMessage`. -/
def exampleDocument : Json :=
  .obj [("to", .str "someDeviceToken"), ("collapse_key", .str ""),
    ("priority", .num ⟨false, 0, none, none⟩), ("time_to_live", .num ⟨false, 25, none, none⟩),
    ("data", .obj [("message", .str "Hello world!"), ("some-var", .num ⟨false, 1, none, none⟩),
      ("title", .str "Title demo")])]

/-! ## The response schema of the specification -/

/-- An element of `results` in the response schema: an object with the optional
string members `message_id`, `registration_id` and `error`. -/
structure ResultDoc where
  message_id : Option String := none
  registration_id : Option String := none
  error : Option String := none
deriving DecidableEq, Repr

/-- A body of the response schema: the integers `multicast_id`, `success`,
`failure` and `canonical_ids` and the array `results`. -/
structure ResponseDoc where
  multicast_id : Int
  success : Int
  failure : Int
  canonical_ids : Int
  results : List ResultDoc
deriving DecidableEq, Repr

/-- The optional string member `k` of an object: absent, or a string; none
when the member is there and is no string. -/
def strMember (ms : List (String × Json)) (k : String) : Option (Option String) :=
  match ms.lookup k with
  | none => some none
  | some (.str s) => some (some s)
  | some _ => none

/-- The integer member `k` of an object, written without fraction and without
exponent. -/
def intMember (ms : List (String × Json)) (k : String) : Option Int :=
  match ms.lookup k with
  | some (.num l) => l.toInt?
  | _ => none

/-- Whether a key of an object is one of the names of a schema, or names none
of its fields, as a member the schema does not know. -/
def knownOrForeign (names : List String) (k : String) : Bool :=
  decide (k ∈ names) || names.all (fun n => !equalFold k n)

/-- Whether a JSON value is an element of `results` with the members of `d`,
each once, besides members the schema does not know. -/
def ResultDoc.matches (d : ResultDoc) : Json → Bool
  | .obj ms =>
    decide ((ms.map Prod.fst).Nodup)
    && ms.all (fun p => knownOrForeign ["message_id", "registration_id", "error"] p.1)
    && decide (strMember ms "message_id" = some d.message_id)
    && decide (strMember ms "registration_id" = some d.registration_id)
    && decide (strMember ms "error" = some d.error)
  | _ => false

/-- Whether an array holds the elements `ds`, in order. -/
def matchesResults : List ResultDoc → List Json → Bool
  | [], [] => true
  | d :: ds, x :: xs => d.matches x && matchesResults ds xs
  | _, _ => false

/-- Whether a JSON value is a body of the response schema with the content of
`d`: an object with the five members, each once and in any order, the integers
within the range of `int`, besides members the schema does not know. -/
def ResponseDoc.matches (d : ResponseDoc) : Json → Bool
  | .obj ms =>
    decide ((ms.map Prod.fst).Nodup)
    && ms.all (fun p => knownOrForeign
        ["multicast_id", "success", "failure", "canonical_ids", "results"] p.1)
    && decide (intMember ms "multicast_id" = some d.multicast_id) && inIntRange d.multicast_id
    && decide (intMember ms "success" = some d.success) && inIntRange d.success
    && decide (intMember ms "failure" = some d.failure) && inIntRange d.failure
    && decide (intMember ms "canonical_ids" = some d.canonical_ids)
    && inIntRange d.canonical_ids
    && (match ms.lookup "results" with
        | some (.arr xs) => matchesResults d.results xs
        | _ => false)
  | _ => false

/-- The `Result` of an element of `results`: an absent member gives the empty
string. -/
def ResultDoc.toResult (d : ResultDoc) : Result :=
  { MessageID := d.message_id.getD "", RegistrationID := d.registration_id.getD "",
    Error := d.error.getD "" }

/-- Whether exactly one of `message_id` and `error` is there and not empty. -/
def ResultDoc.exactlyOne (d : ResultDoc) : Bool :=
  (d.message_id.getD "" != "") != (d.error.getD "" != "")

/-- What the members of an object make of an `int` field that holds `cur`: the
field keeps `cur` without a member `k`, and takes the integer of the member
otherwise. -/
def IntAt (ms : List (String × Json)) (k : String) (cur a : Int) : Prop :=
  (ms.lookup k = none ∧ a = cur) ∨ (intMember ms k = some a ∧ inIntRange a = true)

/-- What the members of an object make of the field `Results` that holds
`cur`: the field keeps `cur` without a member `results`, and a nil field takes
the results of the array otherwise. -/
def ResultsAt (ms : List (String × Json)) (cur e : Option (List (Option Result))) : Prop :=
  (ms.lookup "results" = none ∧ e = cur) ∨
  (∃ xs ds, ms.lookup "results" = some (.arr xs) ∧ matchesResults ds xs = true ∧
    cur = none ∧ e = some (ds.map (fun d => some d.toResult)))

/-! ## Client construction -/

/-- C1 (counterexample): a server key of 39 characters, one of them outside
ASCII, has 40 bytes, and `New` refuses it with `ErrInvalidServerKey`. -/
theorem New_refuses_key_of_39_characters :
    "someServerKey1234567890123456789012345é".length = 39 ∧
    New "someServerKey1234567890123456789012345é" 1000000000
      = (none, some ErrInvalidServerKey) := by
  decide

/-- C1 (amended): `New k t` returns no client and `ErrInvalidServerKey` exactly
when the length of `k` in bytes differs from 39, so the empty key is refused;
when that length is 39 it returns no error and a client whose `ServerKey` is
`k`, whatever `k` contains. -/
theorem New_accepts_exactly_39_bytes (k : String) (t : Int) :
    (New k t = (none, some ErrInvalidServerKey) ↔ len k ≠ 39) ∧
    New "" t = (none, some ErrInvalidServerKey) ∧
    New k t = (if len k = 39 then (some { ServerKey := k, client := { Timeout := t } }, none)
      else (none, some ErrInvalidServerKey)) := by
  refine ⟨?_, ?_, ?_⟩
  · by_cases h : len k = 39 <;> simp [New, serverKeyLen, h]
  · simp [New, serverKeyLen, len]
    decide
  · by_cases h : len k = 39 <;> simp [New, serverKeyLen, h]

/-! ## The request -/

/-- The request `Send` builds from a marshalled message. -/
theorem httpNewRequest_endpoint (b : Json) :
    httpNewRequest "POST" fcmEndpoint b
      = .ok (Request.mk "POST" Endpoint [] b) := by
  have h1 : ("POST".toList.isEmpty || !"POST".toList.all isTokenChar) = false := by decide
  have h2 : fcmEndpoint.toList.any
      (fun c => decide (c.toNat < 0x20) || decide (c.toNat = 0x7f)) = false := by decide
  simp only [httpNewRequest, h1, h2]
  rfl

/-- What `Send` does once the message is marshalled. -/
theorem Send_of_marshal (f : FCM) (net : Transport) (message : Option Message) (b : Json)
    (h : jsonMarshal message = .ok b) :
    Send f net message =
      match net f.client (specRequest f.ServerKey b) with
      | .error err => ⟨[specRequest f.ServerKey b], none, some (.errorf ("fcm: do: " ++ err))⟩
      | .ok resp =>
        if resp.StatusCode ≠ 200 then ⟨[specRequest f.ServerKey b], none, some ErrRequestFail⟩
        else
          match decodeBody resp.Body with
          | (buf, .error _) =>
            ⟨[specRequest f.ServerKey b], none, some (.errorf ("fcm: " ++ buf))⟩
          | (_, .ok res) => ⟨[specRequest f.ServerKey b], res, none⟩ := by
  simp only [Send, h, httpNewRequest_endpoint, Request.addHeader, List.nil_append,
    List.cons_append, specRequest, Endpoint]

/-- A call whose message is marshalled hands the transport the request of the
specification and no other. -/
theorem Send_hands_transport_one_request_aux (f : FCM) (net : Transport)
    (message : Option Message) (b : Json) (h : jsonMarshal message = .ok b) :
    (Send f net message).sent = [specRequest f.ServerKey b] := by
  rw [Send_of_marshal f net message b h]
  cases net f.client (specRequest f.ServerKey b) with
  | error e => rfl
  | ok resp =>
    by_cases hc : resp.StatusCode = 200
    · simp only [hc, ne_eq, not_true_eq_false, if_false]
      rcases hd : decodeBody resp.Body with ⟨buf, r⟩
      cases r <;> rfl
    · simp only [ne_eq, hc, not_false_eq_true, if_true]

/-- C2: for a message whose serialization succeeds, an empty recipient
included, `Send` hands the transport exactly one request, the POST to the
fixed endpoint with the headers `Authorization: key=<ServerKey>` and
`Content-Type: application/json` and the serialized message as body; it
never answers with `ErrInvalidToken`, and what it returns depends on the
answer of the transport to that request only: two calls whose transports
answer alike return the same pair. -/
theorem Send_hands_transport_one_request (f : FCM) (net : Transport) (m : Message) (b : Json)
    (h : jsonMarshal (some m) = .ok b) :
    (Send f net (some m)).sent = [specRequest f.ServerKey b] ∧
    (Send f net (some m)).err ≠ some ErrInvalidToken ∧
    ∀ (f' : FCM) (net' : Transport) (m' : Message) (b' : Json),
      jsonMarshal (some m') = .ok b' →
      net' f'.client (specRequest f'.ServerKey b') = net f.client (specRequest f.ServerKey b) →
      (Send f' net' (some m')).res = (Send f net (some m)).res ∧
      (Send f' net' (some m')).err = (Send f net (some m)).err := by
  refine ⟨Send_hands_transport_one_request_aux f net (some m) b h, ?_, ?_⟩
  · rw [Send_of_marshal f net (some m) b h]
    cases net f.client (specRequest f.ServerKey b) with
    | error e => simp [ErrInvalidToken]
    | ok resp =>
      by_cases hc : resp.StatusCode = 200
      · simp only [hc, ne_eq, not_true_eq_false, if_false]
        rcases hd : decodeBody resp.Body with ⟨buf, r⟩
        cases r <;> simp [ErrInvalidToken]
      · simp [hc, ErrInvalidToken, ErrRequestFail]
  · intro f' net' m' b' h' hn
    rw [Send_of_marshal f net (some m) b h, Send_of_marshal f' net' (some m') b' h', hn]
    cases net f.client (specRequest f.ServerKey b) with
    | error e => exact ⟨rfl, rfl⟩
    | ok resp =>
      by_cases hc : resp.StatusCode = 200
      · simp only [hc, ne_eq, not_true_eq_false, if_false]
        rcases hd : decodeBody resp.Body with ⟨buf, r⟩
        cases r <;> exact ⟨rfl, rfl⟩
      · simp only [ne_eq, hc, not_false_eq_true, if_true, and_self]

/-- C2 (witness): the message with an empty recipient, no registration ids and
no condition, sent by a client that `New` built. -/
theorem Send_hands_transport_one_request_witness :
    New "someServerKey12345678901234567890123456" 1000000000
      = (some ⟨"someServerKey12345678901234567890123456", ⟨1000000000⟩⟩, none) ∧
    jsonMarshal (some {}) = .ok (.obj [("collapse_key", .str ""),
      ("priority", .num ⟨false, 0, none, none⟩)]) ∧
    (Send ⟨"someServerKey12345678901234567890123456", ⟨1000000000⟩⟩
        (fun _ _ => .error "timeout") (some {})).sent
      = [specRequest "someServerKey12345678901234567890123456"
          (.obj [("collapse_key", .str ""), ("priority", .num ⟨false, 0, none, none⟩)])] :=
  ⟨by decide, rfl,
    (Send_hands_transport_one_request ⟨"someServerKey12345678901234567890123456", ⟨1000000000⟩⟩
      (fun _ _ => .error "timeout") {}
      (.obj [("collapse_key", .str ""), ("priority", .num ⟨false, 0, none, none⟩)]) rfl).1⟩

/-! ## The answer -/

/-- A call that handed a request to the transport marshalled its message, and
the request is the one of the specification. -/
theorem sent_eq (f : FCM) (net : Transport) (message : Option Message) (req : Request)
    (hs : (Send f net message).sent = [req]) :
    ∃ b, jsonMarshal message = .ok b ∧ req = specRequest f.ServerKey b := by
  cases hm : jsonMarshal message with
  | error e =>
    simp [Send, hm] at hs
  | ok b =>
    refine ⟨b, rfl, ?_⟩
    have h2 := (Send_hands_transport_one_request_aux f net message b hm)
    rw [h2] at hs
    exact (List.cons.inj hs).1.symm


/-- C4: whenever the transport answers the request of `Send` with a status
code other than 200, `Send` returns a nil `Response` and the sentinel
`ErrRequestFail`, whatever the body holds. -/
theorem Send_status_not_200 (f : FCM) (net : Transport) (message : Option Message)
    (req : Request) (resp : HttpResponse)
    (hs : (Send f net message).sent = [req]) (hn : net f.client req = .ok resp)
    (hc : resp.StatusCode ≠ 200) :
    (Send f net message).res = none ∧ (Send f net message).err = some ErrRequestFail := by
  obtain ⟨b, hm, rfl⟩ := sent_eq f net message req hs
  rw [Send_of_marshal f net message b hm, hn]
  simp only [ne_eq, hc, not_false_eq_true, if_true, and_self]

/-- C4 (witness): the status codes 400, 500 and 302, each with a body that
would decode. -/
theorem Send_status_not_200_witness :
    ((Send ⟨"someServerKey12345678901234567890123456", ⟨1000000000⟩⟩
        (fun _ _ => .ok ⟨400, ⟨["\x7b\"success\":1\x7d"], none⟩⟩)
        (some (NewMessage "someDeviceToken"))).res = none ∧
      (Send ⟨"someServerKey12345678901234567890123456", ⟨1000000000⟩⟩
        (fun _ _ => .ok ⟨400, ⟨["\x7b\"success\":1\x7d"], none⟩⟩)
        (some (NewMessage "someDeviceToken"))).err = some ErrRequestFail) ∧
    ((Send ⟨"someServerKey12345678901234567890123456", ⟨1000000000⟩⟩
        (fun _ _ => .ok ⟨500, ⟨["\x7b\"success\":1\x7d"], none⟩⟩)
        (some (NewMessage "someDeviceToken"))).res = none ∧
      (Send ⟨"someServerKey12345678901234567890123456", ⟨1000000000⟩⟩
        (fun _ _ => .ok ⟨500, ⟨["\x7b\"success\":1\x7d"], none⟩⟩)
        (some (NewMessage "someDeviceToken"))).err = some ErrRequestFail) ∧
    ((Send ⟨"someServerKey12345678901234567890123456", ⟨1000000000⟩⟩
        (fun _ _ => .ok ⟨302, ⟨[], none⟩⟩)
        (some (NewMessage "someDeviceToken"))).res = none ∧
      (Send ⟨"someServerKey12345678901234567890123456", ⟨1000000000⟩⟩
        (fun _ _ => .ok ⟨302, ⟨[], none⟩⟩)
        (some (NewMessage "someDeviceToken"))).err = some ErrRequestFail) :=
  ⟨Send_status_not_200 _ _ _ _ ⟨400, ⟨["\x7b\"success\":1\x7d"], none⟩⟩
      (Send_hands_transport_one_request_aux _ _ _ _ rfl) rfl (by decide),
    Send_status_not_200 _ _ _ _ ⟨500, ⟨["\x7b\"success\":1\x7d"], none⟩⟩
      (Send_hands_transport_one_request_aux _ _ _ _ rfl) rfl (by decide),
    Send_status_not_200 _ _ _ _ ⟨302, ⟨[], none⟩⟩
      (Send_hands_transport_one_request_aux _ _ _ _ rfl) rfl (by decide)⟩

/-- The text the decoder has read is made of the first pieces of the body. -/
theorem readValue_buf (chunks : List String) :
    ∀ (s : Scanner) (buf : String) (err : Option String),
      ∃ n, (readValue s buf chunks err).1 = buf ++ concat (chunks.take n) := by
  induction chunks with
  | nil =>
    intro s buf err
    refine ⟨0, ?_⟩
    cases err with
    | some e => simp [readValue, concat]
    | none =>
      simp only [readValue]
      split <;> simp [concat]
  | cons c cs ih =>
    intro s buf err
    simp only [readValue]
    split
    · exact ⟨1, by simp [concat]⟩
    · exact ⟨1, by simp [concat]⟩
    · rename_i s' _
      obtain ⟨n, hn⟩ := ih s' (buf ++ c) err
      exact ⟨n + 1, by rw [hn]; simp [concat, String.append_assoc]⟩

/-- The text read from a body that arrives in one piece is the whole body. -/
theorem readValue_single (s : Scanner) (c : String) (err : Option String) :
    (readValue s "" [c] err).1 = c := by
  simp only [readValue]
  split
  · simp
  · simp
  · cases err with
    | some e => simp [readValue]
    | none =>
      simp only [readValue]
      split <;> simp

/-- C6 (counterexample): the answer 200 with the plain text `Unavailable` as
body gives the error `fcm: Unavailable`, which is not the body text. -/
theorem Send_error_is_not_body_verbatim :
    (Send ⟨"someServerKey12345678901234567890123456", ⟨1000000000⟩⟩
        (fun _ _ => .ok ⟨200, ⟨["Unavailable"], none⟩⟩)
        (some (NewMessage "someDeviceToken"))).err
      = some (.errorf "fcm: Unavailable") ∧
    (GoError.errorf "fcm: Unavailable").Error ≠ "Unavailable" := by
  decide

/-- C6 (amended): when the transport answers with status 200 and the body
cannot be decoded into the `Response` shape, `Send` returns a nil `Response`
and an error whose message is `fcm: ` followed by the text of the body the
decoder had read when it failed: the first pieces of the body, and the whole
body when it arrives in one piece. -/
theorem Send_undecodable_body (f : FCM) (net : Transport) (message : Option Message)
    (req : Request) (resp : HttpResponse) (buf : String) (e : DecodeError)
    (hs : (Send f net message).sent = [req]) (hn : net f.client req = .ok resp)
    (hc : resp.StatusCode = 200) (hd : decodeBody resp.Body = (buf, .error e)) :
    (Send f net message).res = none ∧
    (∃ err, (Send f net message).err = some err ∧ err.Error = "fcm: " ++ buf) ∧
    (∃ n, buf = concat (resp.Body.chunks.take n)) ∧
    (∀ c, resp.Body.chunks = [c] → buf = resp.Body.text) := by
  obtain ⟨b, hm, rfl⟩ := sent_eq f net message req hs
  have hbuf : buf = (readValue Scanner.init "" resp.Body.chunks resp.Body.err).1 := by
    have h1 := congrArg Prod.fst hd
    simp only [decodeBody] at h1
    rw [← h1]
    split <;> simp_all
  refine ⟨?_, ?_, ?_, ?_⟩
  · rw [Send_of_marshal f net message b hm, hn]
    simp [hc, hd]
  · refine ⟨.errorf ("fcm: " ++ buf), ?_, rfl⟩
    rw [Send_of_marshal f net message b hm, hn]
    simp [hc, hd]
  · obtain ⟨n, h⟩ := readValue_buf resp.Body.chunks Scanner.init "" resp.Body.err
    exact ⟨n, by rw [hbuf, h]; simp⟩
  · intro c hcs
    rw [hbuf, hcs, readValue_single, Body.text, hcs]
    simp [concat]

/-- C6 (witness): the plain text `Unavailable`. -/
theorem Send_undecodable_body_witness :
    (Send ⟨"someServerKey12345678901234567890123456", ⟨1000000000⟩⟩
        (fun _ _ => .ok ⟨200, ⟨["Unavailable"], none⟩⟩)
        (some (NewMessage "someDeviceToken"))).res = none ∧
    (∃ err, (Send ⟨"someServerKey12345678901234567890123456", ⟨1000000000⟩⟩
        (fun _ _ => .ok ⟨200, ⟨["Unavailable"], none⟩⟩)
        (some (NewMessage "someDeviceToken"))).err = some err ∧
      err.Error = "fcm: " ++ "Unavailable") ∧
    (∃ n, "Unavailable" = concat (["Unavailable"].take n)) ∧
    (∀ c, ["Unavailable"] = [c] → "Unavailable" = (Body.mk ["Unavailable"] none).text) :=
  Send_undecodable_body ⟨"someServerKey12345678901234567890123456", ⟨1000000000⟩⟩
    (fun _ _ => .ok ⟨200, ⟨["Unavailable"], none⟩⟩) (some (NewMessage "someDeviceToken"))
    _ ⟨200, ⟨["Unavailable"], none⟩⟩ "Unavailable" .syntax_
    (Send_hands_transport_one_request_aux _ _ _ _ rfl) rfl rfl (by decide)

/-- C10: the answer 200 with the body `null` makes `Send` return a nil
`Response` together with a nil error. -/
theorem Send_null_body_returns_nil_nil :
    (Send ⟨"someServerKey12345678901234567890123456", ⟨1000000000⟩⟩
        (fun _ _ => .ok ⟨200, ⟨["null"], none⟩⟩)
        (some (NewMessage "someDeviceToken"))).res = none ∧
    (Send ⟨"someServerKey12345678901234567890123456", ⟨1000000000⟩⟩
        (fun _ _ => .ok ⟨200, ⟨["null"], none⟩⟩)
        (some (NewMessage "someDeviceToken"))).err = none := by
  decide

/-- Only the value `null` decodes into a nil pointer. -/
theorem decodeResponsePtr_none (v : Json) (h : decodeResponsePtr v = .ok none) : v = .null := by
  cases v with
  | null => rfl
  | obj ms =>
    simp only [decodeResponsePtr] at h
    cases hd : ({} : Response).decodeMembers ms with
    | ok r => simp [hd] at h
    | error e => simp [hd] at h
  | bool b => simp [decodeResponsePtr] at h
  | num n => simp [decodeResponsePtr] at h
  | str s => simp [decodeResponsePtr] at h
  | arr xs => simp [decodeResponsePtr] at h

/-- Apart from an answer with status 200 whose body is the value `null`, `Send`
returns either a `Response` and no error, or no `Response` and an error. -/
theorem Send_one_of_two_unless_null (f : FCM) (net : Transport) (message : Option Message) :
    ((Send f net message).res ≠ none ∧ (Send f net message).err = none) ∨
    ((Send f net message).res = none ∧ (Send f net message).err ≠ none) ∨
    ((Send f net message).res = none ∧ (Send f net message).err = none ∧
      ∃ b resp buf, jsonMarshal message = .ok b ∧
        net f.client (specRequest f.ServerKey b) = .ok resp ∧ resp.StatusCode = 200 ∧
        readValue Scanner.init "" resp.Body.chunks resp.Body.err = (buf, .ok .null)) := by
  cases hm : jsonMarshal message with
  | error e =>
    right; left
    simp [Send, hm]
  | ok b =>
    rw [Send_of_marshal f net message b hm]
    cases hn : net f.client (specRequest f.ServerKey b) with
    | error e =>
      right; left
      simp
    | ok resp =>
      by_cases hc : resp.StatusCode = 200
      · simp only [hc, ne_eq, not_true_eq_false, if_false]
        rcases hr : readValue Scanner.init "" resp.Body.chunks resp.Body.err with ⟨buf, r⟩
        cases r with
        | error e =>
          right; left
          simp [decodeBody, hr]
        | ok v =>
          cases hd : decodeResponsePtr v with
          | error e =>
            right; left
            simp [decodeBody, hr, hd]
          | ok res =>
            cases res with
            | some r =>
              left
              simp [decodeBody, hr, hd]
            | none =>
              right; right
              have hv := decodeResponsePtr_none v hd
              subst hv
              refine ⟨by simp [decodeBody, hr, hd], by simp [decodeBody, hr, hd], b, resp, buf,
                rfl, hn, hc, hr⟩
      · right; left
        simp [hc]

/-! ## Serialization of a message -/

/-- A field tagged `omitempty` gives its member when it is not empty, and
nothing else. -/
theorem mem_omitEmpty (empty : Bool) (name : String) (v : Json) (p : String × Json) :
    p ∈ omitEmpty empty name v ↔ empty = false ∧ p = (name, v) := by
  cases empty <;> simp [omitEmpty]

/-- The members written for the fields other than the two maps. -/
theorem mem_plainMembers (m : Message) (p : String × Json) (h : p ∈ m.plainMembers) :
    p.1 ≠ "data" ∧ p.1 ≠ "notification" ∧ (p.1 = "time_to_live" → m.TimeToLive ≠ 0) := by
  simp only [Message.plainMembers, List.mem_append, mem_omitEmpty, List.mem_singleton] at h
  rcases h with (((((((((h | h) | h) | h) | h) | h) | h) | h) | h) | h)
  · obtain ⟨-, rfl⟩ := h; simp
  · obtain ⟨-, rfl⟩ := h; simp
  · obtain ⟨-, rfl⟩ := h; simp
  · subst h; simp
  · subst h; simp
  · obtain ⟨-, rfl⟩ := h; simp
  · obtain ⟨-, rfl⟩ := h; simp
  · obtain ⟨h1, rfl⟩ := h; simpa using h1
  · obtain ⟨-, rfl⟩ := h; simp
  · obtain ⟨-, rfl⟩ := h; simp

/-- The member written for a map field: none for a map without entry, and
none under another name. -/
theorem marshalKeyValue_ok (name : String) (d : KeyValue) (ms : List (String × Json))
    (h : marshalKeyValue name d = .ok ms) :
    (∀ p ∈ ms, p.1 = name) ∧ (d = none ∨ d = some [] → ms = []) := by
  match d, h with
  | none, h =>
    simp only [marshalKeyValue, Except.ok.injEq] at h
    subst h
    simp
  | some [], h =>
    simp only [marshalKeyValue, Except.ok.injEq] at h
    subst h
    simp
  | some (kv :: kvs), h =>
    simp only [marshalKeyValue] at h
    split at h
    · simp only [Except.ok.injEq] at h
      subst h
      simp
    · exact absurd h (by simp)

/-- C3: the JSON object of a message always holds the members `collapse_key`
and `priority`, with the values of the fields, the empty string and 0
included; it holds no `time_to_live` when `TimeToLive` is 0, no `data` when
`Data` has no entry and no `notification` when `Notification` has none. -/
theorem Message_members_always_and_omitted (m : Message) (j : Json)
    (h : jsonMarshal (some m) = .ok j) :
    ∃ ms, j = .obj ms ∧
      ("collapse_key", Json.str m.CollapseKey) ∈ ms ∧
      ("priority", Json.num (NumLit.ofInt m.Priority)) ∈ ms ∧
      (m.TimeToLive = 0 → "time_to_live" ∉ ms.map Prod.fst) ∧
      (m.Data = none ∨ m.Data = some [] → "data" ∉ ms.map Prod.fst) ∧
      (m.Notification = none ∨ m.Notification = some [] →
        "notification" ∉ ms.map Prod.fst) := by
  simp only [jsonMarshal, Message.members] at h
  cases hd : marshalKeyValue "data" m.Data with
  | error e => simp [hd] at h
  | ok d =>
    cases hn : marshalKeyValue "notification" m.Notification with
    | error e => simp [hd, hn] at h
    | ok n =>
      simp only [hd, hn, Except.ok.injEq] at h
      obtain ⟨hdk, hde⟩ := marshalKeyValue_ok "data" m.Data d hd
      obtain ⟨hnk, hne⟩ := marshalKeyValue_ok "notification" m.Notification n hn
      refine ⟨m.plainMembers ++ d ++ n, h.symm, ?_, ?_, ?_, ?_, ?_⟩
      · simp [Message.plainMembers]
      · simp [Message.plainMembers]
      · intro h0 hmem
        obtain ⟨p, hp, hpk⟩ := List.mem_map.mp hmem
        rcases List.mem_append.mp hp with hp | hp
        · rcases List.mem_append.mp hp with hp | hp
          · exact (mem_plainMembers m p hp).2.2 hpk h0
          · exact absurd ((hdk p hp).symm.trans hpk) (by decide)
        · exact absurd ((hnk p hp).symm.trans hpk) (by decide)
      · intro h0 hmem
        obtain ⟨p, hp, hpk⟩ := List.mem_map.mp hmem
        rcases List.mem_append.mp hp with hp | hp
        · rcases List.mem_append.mp hp with hp | hp
          · exact (mem_plainMembers m p hp).1 hpk
          · rw [hde h0] at hp
            exact absurd hp (List.not_mem_nil p)
        · exact absurd ((hnk p hp).symm.trans hpk) (by decide)
      · intro h0 hmem
        obtain ⟨p, hp, hpk⟩ := List.mem_map.mp hmem
        rcases List.mem_append.mp hp with hp | hp
        · rcases List.mem_append.mp hp with hp | hp
          · exact (mem_plainMembers m p hp).2.1 hpk
          · exact absurd ((hdk p hp).symm.trans hpk) (by decide)
        · rw [hne h0] at hp
          exact absurd hp (List.not_mem_nil p)

/-- C3 (witness): the zero message, with an empty collapse key, priority 0,
time to live 0 and no map. -/
theorem Message_members_always_and_omitted_witness :
    ∃ ms, Json.obj [("collapse_key", .str ""), ("priority", .num ⟨false, 0, none, none⟩)]
        = .obj ms ∧
      ("collapse_key", Json.str "") ∈ ms ∧
      ("priority", Json.num (NumLit.ofInt 0)) ∈ ms ∧
      ((0 : Int) = 0 → "time_to_live" ∉ ms.map Prod.fst) ∧
      ((none : KeyValue) = none ∨ (none : KeyValue) = some [] → "data" ∉ ms.map Prod.fst) ∧
      ((none : KeyValue) = none ∨ (none : KeyValue) = some [] →
        "notification" ∉ ms.map Prod.fst) :=
  Message_members_always_and_omitted {}
    (.obj [("collapse_key", .str ""), ("priority", .num ⟨false, 0, none, none⟩)]) rfl

/-! ## The message builder -/

/-- C9 (counterexample): the message `NewMessage` builds holds an empty map
that is not nil, and its JSON object has no member `data` and no member
`notification`. -/
theorem NewMessage_marshal_has_no_data :
    (NewMessage "someDeviceToken").Data = some [] ∧
    jsonMarshal (some (NewMessage "someDeviceToken"))
      = .ok (.obj [("to", .str "someDeviceToken"), ("collapse_key", .str ""),
          ("priority", .num ⟨false, 0, none, none⟩)]) :=
  ⟨rfl, rfl⟩

/-- C9 (amended): `NewMessage to` returns a message with `To` equal to `to`,
`Data` and `Notification` empty maps that are not nil and every other field at
its zero value; serialized with no key inserted, it gives the members `to`
(when not empty), `collapse_key` and `priority` only: the empty maps are
omitted. -/
theorem NewMessage_empty_maps_omitted (to_ : String) :
    NewMessage to_ =
      { To := to_, RegistrationIDs := none, Condition := "", CollapseKey := "",
        Priority := 0, ContentAvailable := false, DelayWhileIdle := false, TimeToLive := 0,
        RestrictedPackageName := "", DryRun := false, Data := some [],
        Notification := some [] } ∧
    (NewMessage to_).Data ≠ none ∧ (NewMessage to_).Notification ≠ none ∧
    jsonMarshal (some (NewMessage to_))
      = .ok (.obj (omitEmpty (to_ == "") "to" (.str to_) ++
          [("collapse_key", .str ""), ("priority", .num (NumLit.ofInt 0))])) := by
  refine ⟨rfl, by simp [NewMessage], by simp [NewMessage], ?_⟩
  simp [jsonMarshal, Message.members, marshalKeyValue, Message.plainMembers, NewMessage,
    omitEmpty]

/-! ## Decoding a body of the response schema -/

/-- A key that is not among the keys of the members is not found. -/
theorem lookup_eq_none_of_not_mem {α : Type} (k : String) :
    ∀ (ms : List (String × α)), k ∉ ms.map Prod.fst → ms.lookup k = none := by
  intro ms
  induction ms with
  | nil => intro _; rfl
  | cons p ms ih =>
    intro h
    obtain ⟨k', v⟩ := p
    simp only [List.map_cons, List.mem_cons, not_or] at h
    have hne : (k == k') = false := by simpa using h.1
    simp only [List.lookup_cons, hne]
    exact ih h.2

/-- A key that names no field under a name is not that name. -/
theorem beq_false_of_equalFold (k name : String) (h : equalFold k name = false) :
    (name == k) = false := by
  by_cases hk : name = k
  · subst hk
    simp [equalFold] at h
  · simpa using hk

/-- The cases of a key that is known or foreign to the schema of a result. -/
theorem knownOrForeign_result (k : String)
    (h : knownOrForeign ["message_id", "registration_id", "error"] k = true) :
    k = "message_id" ∨ k = "registration_id" ∨ k = "error" ∨
    (equalFold k "message_id" = false ∧ equalFold k "registration_id" = false ∧
      equalFold k "error" = false) := by
  simp only [knownOrForeign, Bool.or_eq_true, decide_eq_true_eq, List.mem_cons,
    List.mem_singleton, List.not_mem_nil, or_false, List.all_cons, List.all_nil, Bool.and_true,
    Bool.and_eq_true, Bool.not_eq_true'] at h
  tauto

/-- An object of the schema of a result decodes into the fields of its
members; the fields without member keep their value. -/
theorem Result_decodeMembers_ok (ms : List (String × Json)) :
    ∀ (r : Result) (a b c : Option String),
      (ms.map Prod.fst).Nodup →
      (∀ p ∈ ms, knownOrForeign ["message_id", "registration_id", "error"] p.1 = true) →
      strMember ms "message_id" = some a →
      strMember ms "registration_id" = some b →
      strMember ms "error" = some c →
      r.decodeMembers ms
        = .ok ⟨a.getD r.MessageID, b.getD r.RegistrationID, c.getD r.Error⟩ := by
  induction ms with
  | nil =>
    intro r a b c _ _ ha hb hc
    simp only [strMember, List.lookup_nil, Option.some.injEq] at ha hb hc
    subst ha hb hc
    rfl
  | cons p ms ih =>
    intro r a b c hnd hk ha hb hc
    obtain ⟨k, v⟩ := p
    have hk0 := knownOrForeign_result k (hk (k, v) (List.mem_cons_self _ _))
    have hnd' := (List.nodup_cons.mp hnd).2
    have hnot := (List.nodup_cons.mp hnd).1
    have hk' : ∀ p ∈ ms,
        knownOrForeign ["message_id", "registration_id", "error"] p.1 = true :=
      fun p hp => hk p (List.mem_cons_of_mem _ hp)
    rcases hk0 with h | h | h | ⟨g1, g2, g3⟩
    · subst h
      have hl := lookup_eq_none_of_not_mem "message_id" ms hnot
      simp only [strMember, List.lookup_cons, beq_self_eq_true] at ha
      have e1 : ("registration_id" == "message_id") = false := by decide
      have e2 : ("error" == "message_id") = false := by decide
      simp only [strMember, List.lookup_cons, e1, e2] at hb hc
      cases v <;> simp only [Option.some.injEq, reduceCtorEq] at ha
      subst ha
      have f1 : equalFold "message_id" "message_id" = true := by decide
      simp only [Result.decodeMembers, Result.setField, f1, if_true, Bool.false_eq_true, if_false, decodeString]
      rw [ih _ none b c hnd' hk' (by simp [strMember, hl]) hb hc]
      rfl
    · subst h
      have hl := lookup_eq_none_of_not_mem "registration_id" ms hnot
      simp only [strMember, List.lookup_cons, beq_self_eq_true] at hb
      have e1 : ("message_id" == "registration_id") = false := by decide
      have e2 : ("error" == "registration_id") = false := by decide
      simp only [strMember, List.lookup_cons, e1, e2] at ha hc
      cases v <;> simp only [Option.some.injEq, reduceCtorEq] at hb
      subst hb
      have f0 : equalFold "registration_id" "message_id" = false := by decide
      have f1 : equalFold "registration_id" "registration_id" = true := by decide
      simp only [Result.decodeMembers, Result.setField, f0, f1, if_true, Bool.false_eq_true, if_false, decodeString]
      rw [ih _ a none c hnd' hk' ha (by simp [strMember, hl]) hc]
      rfl
    · subst h
      have hl := lookup_eq_none_of_not_mem "error" ms hnot
      simp only [strMember, List.lookup_cons, beq_self_eq_true] at hc
      have e1 : ("message_id" == "error") = false := by decide
      have e2 : ("registration_id" == "error") = false := by decide
      simp only [strMember, List.lookup_cons, e1, e2] at ha hb
      cases v <;> simp only [Option.some.injEq, reduceCtorEq] at hc
      subst hc
      have f0 : equalFold "error" "message_id" = false := by decide
      have f1 : equalFold "error" "registration_id" = false := by decide
      have f2 : equalFold "error" "error" = true := by decide
      simp only [Result.decodeMembers, Result.setField, f0, f1, f2, if_true, Bool.false_eq_true, if_false, decodeString]
      rw [ih _ a b none hnd' hk' ha hb (by simp [strMember, hl])]
      rfl
    · have e1 := beq_false_of_equalFold k _ g1
      have e2 := beq_false_of_equalFold k _ g2
      have e3 := beq_false_of_equalFold k _ g3
      simp only [strMember, List.lookup_cons, e1, e2, e3] at ha hb hc
      simp only [Result.decodeMembers, Result.setField, g1, g2, g3, Bool.false_eq_true,
        if_false]
      exact ih r a b c hnd' hk' ha hb hc

/-- An array of the schema decodes, into a nil slice, to the results of its
elements in order. -/
theorem decodeResultList_ok :
    ∀ (ds : List ResultDoc) (xs : List Json), matchesResults ds xs = true →
      decodeResultList [] xs = .ok (ds.map (fun d => some d.toResult)) := by
  intro ds
  induction ds with
  | nil =>
    intro xs h
    cases xs with
    | nil => rfl
    | cons x xs => simp [matchesResults] at h
  | cons d ds ih =>
    intro xs h
    cases xs with
    | nil => simp [matchesResults] at h
    | cons x xs =>
      simp only [matchesResults, Bool.and_eq_true] at h
      obtain ⟨hd, hrest⟩ := h
      cases x with
      | obj ms =>
        simp only [ResultDoc.matches, Bool.and_eq_true, decide_eq_true_eq, List.all_eq_true]
          at hd
        obtain ⟨⟨⟨⟨hnd, hk⟩, ha⟩, hb⟩, hc⟩ := hd
        have hdec := Result_decodeMembers_ok ms {} d.message_id d.registration_id d.error hnd
          hk ha hb hc
        have h0 : decodeResultPtr none (.obj ms) = .ok (some d.toResult) := by
          simp only [decodeResultPtr, Option.getD_none, hdec]
          rfl
        have hj : (([] : List (Option Result)).head?.join) = none := rfl
        simp only [decodeResultList, hj, h0, List.tail_nil, ih xs hrest, List.map_cons]
      | null => simp [ResultDoc.matches] at hd
      | bool b => simp [ResultDoc.matches] at hd
      | num n => simp [ResultDoc.matches] at hd
      | str s => simp [ResultDoc.matches] at hd
      | arr ys => simp [ResultDoc.matches] at hd

/-- A member under another key leaves what the members make of an `int`
field. -/
theorem IntAt_cons_ne (ms : List (String × Json)) (k k' : String) (v : Json) (cur a : Int)
    (hne : (k == k') = false) (h : IntAt ((k', v) :: ms) k cur a) : IntAt ms k cur a := by
  simpa only [IntAt, intMember, List.lookup_cons, hne] using h

/-- The member `k` itself gives the field its integer. -/
theorem IntAt_cons_self (ms : List (String × Json)) (k : String) (v : Json) (cur a : Int)
    (h : IntAt ((k, v) :: ms) k cur a) : decodeInt cur v = .ok a := by
  simp only [IntAt, intMember, List.lookup_cons, beq_self_eq_true, reduceCtorEq, false_and,
    false_or] at h
  obtain ⟨h1, h2⟩ := h
  cases v <;> simp only [reduceCtorEq] at h1
  simp only [decodeInt, h1, h2, if_true]

/-- A field whose member has been read keeps its value over the members left. -/
theorem IntAt_of_not_mem (ms : List (String × Json)) (k : String) (a : Int)
    (h : k ∉ ms.map Prod.fst) : IntAt ms k a a :=
  Or.inl ⟨lookup_eq_none_of_not_mem k ms h, rfl⟩

/-- A member under another key leaves what the members make of `Results`. -/
theorem ResultsAt_cons_ne (ms : List (String × Json)) (k' : String) (v : Json)
    (cur e : Option (List (Option Result))) (hne : ("results" == k') = false)
    (h : ResultsAt ((k', v) :: ms) cur e) : ResultsAt ms cur e := by
  simpa only [ResultsAt, List.lookup_cons, hne] using h

/-- The member `results` itself gives the field the results of its array. -/
theorem ResultsAt_cons_self (ms : List (String × Json)) (v : Json)
    (cur e : Option (List (Option Result))) (h : ResultsAt (("results", v) :: ms) cur e) :
    decodeResults cur v = .ok e := by
  simp only [ResultsAt, List.lookup_cons, beq_self_eq_true, reduceCtorEq, false_and,
    false_or, Option.some.injEq] at h
  obtain ⟨xs, ds, h1, h2, h3, h4⟩ := h
  subst h1 h3 h4
  simp only [decodeResults, Option.getD_none, decodeResultList_ok ds xs h2]

/-- The cases of a key that is known or foreign to the response schema. -/
theorem knownOrForeign_response (k : String)
    (h : knownOrForeign ["multicast_id", "success", "failure", "canonical_ids", "results"] k
      = true) :
    k = "multicast_id" ∨ k = "success" ∨ k = "failure" ∨ k = "canonical_ids" ∨
    k = "results" ∨
    (equalFold k "multicast_id" = false ∧ equalFold k "success" = false ∧
      equalFold k "failure" = false ∧ equalFold k "canonical_ids" = false ∧
      equalFold k "results" = false) := by
  simp only [knownOrForeign, Bool.or_eq_true, decide_eq_true_eq, List.mem_cons,
    List.mem_singleton, List.not_mem_nil, or_false, List.all_cons, List.all_nil, Bool.and_true,
    Bool.and_eq_true, Bool.not_eq_true'] at h
  tauto

/-- An object of the response schema decodes into the fields of its members;
the fields without member keep their value. -/
theorem Response_decodeMembers_ok (ms : List (String × Json)) :
    ∀ (r : Response) (a b c d : Int) (e : Option (List (Option Result))),
      (ms.map Prod.fst).Nodup →
      (∀ p ∈ ms, knownOrForeign
        ["multicast_id", "success", "failure", "canonical_ids", "results"] p.1 = true) →
      IntAt ms "multicast_id" r.MulticastID a →
      IntAt ms "success" r.Success b →
      IntAt ms "failure" r.Failure c →
      IntAt ms "canonical_ids" r.CanonicalIDs d →
      ResultsAt ms r.Results e →
      r.decodeMembers ms = .ok ⟨a, b, c, d, e⟩ := by
  induction ms with
  | nil =>
    intro r a b c d e _ _ ha hb hc hd he
    simp only [IntAt, intMember, ResultsAt, List.lookup_nil, true_and, reduceCtorEq,
      false_and, or_false, exists_const, exists_false] at ha hb hc hd he
    subst ha hb hc hd he
    rfl
  | cons p ms ih =>
    intro r a b c d e hnd hk ha hb hc hd he
    obtain ⟨k, v⟩ := p
    have hk0 := knownOrForeign_response k (hk (k, v) (List.mem_cons_self _ _))
    have hnd' := (List.nodup_cons.mp hnd).2
    have hnot := (List.nodup_cons.mp hnd).1
    have hk' : ∀ p ∈ ms, knownOrForeign
        ["multicast_id", "success", "failure", "canonical_ids", "results"] p.1 = true :=
      fun p hp => hk p (List.mem_cons_of_mem _ hp)
    rcases hk0 with h | h | h | h | h | ⟨g1, g2, g3, g4, g5⟩
    · subst h
      have f1 : equalFold "multicast_id" "multicast_id" = true := by decide
      simp only [Response.decodeMembers, Response.setField, f1, if_true,
        IntAt_cons_self ms _ v _ a ha]
      exact ih _ a b c d e hnd' hk' (IntAt_of_not_mem ms _ a hnot)
        (IntAt_cons_ne ms _ _ v _ b (by decide) hb)
        (IntAt_cons_ne ms _ _ v _ c (by decide) hc)
        (IntAt_cons_ne ms _ _ v _ d (by decide) hd)
        (ResultsAt_cons_ne ms _ v _ e (by decide) he)
    · subst h
      have f0 : equalFold "success" "multicast_id" = false := by decide
      have f1 : equalFold "success" "success" = true := by decide
      simp only [Response.decodeMembers, Response.setField, f0, f1, if_true,
        Bool.false_eq_true, if_false, IntAt_cons_self ms _ v _ b hb]
      exact ih _ a b c d e hnd' hk' (IntAt_cons_ne ms _ _ v _ a (by decide) ha)
        (IntAt_of_not_mem ms _ b hnot)
        (IntAt_cons_ne ms _ _ v _ c (by decide) hc)
        (IntAt_cons_ne ms _ _ v _ d (by decide) hd)
        (ResultsAt_cons_ne ms _ v _ e (by decide) he)
    · subst h
      have f0 : equalFold "failure" "multicast_id" = false := by decide
      have f1 : equalFold "failure" "success" = false := by decide
      have f2 : equalFold "failure" "failure" = true := by decide
      simp only [Response.decodeMembers, Response.setField, f0, f1, f2, if_true,
        Bool.false_eq_true, if_false, IntAt_cons_self ms _ v _ c hc]
      exact ih _ a b c d e hnd' hk' (IntAt_cons_ne ms _ _ v _ a (by decide) ha)
        (IntAt_cons_ne ms _ _ v _ b (by decide) hb)
        (IntAt_of_not_mem ms _ c hnot)
        (IntAt_cons_ne ms _ _ v _ d (by decide) hd)
        (ResultsAt_cons_ne ms _ v _ e (by decide) he)
    · subst h
      have f0 : equalFold "canonical_ids" "multicast_id" = false := by decide
      have f1 : equalFold "canonical_ids" "success" = false := by decide
      have f2 : equalFold "canonical_ids" "failure" = false := by decide
      have f3 : equalFold "canonical_ids" "canonical_ids" = true := by decide
      simp only [Response.decodeMembers, Response.setField, f0, f1, f2, f3, if_true,
        Bool.false_eq_true, if_false, IntAt_cons_self ms _ v _ d hd]
      exact ih _ a b c d e hnd' hk' (IntAt_cons_ne ms _ _ v _ a (by decide) ha)
        (IntAt_cons_ne ms _ _ v _ b (by decide) hb)
        (IntAt_cons_ne ms _ _ v _ c (by decide) hc)
        (IntAt_of_not_mem ms _ d hnot)
        (ResultsAt_cons_ne ms _ v _ e (by decide) he)
    · subst h
      have f0 : equalFold "results" "multicast_id" = false := by decide
      have f1 : equalFold "results" "success" = false := by decide
      have f2 : equalFold "results" "failure" = false := by decide
      have f3 : equalFold "results" "canonical_ids" = false := by decide
      have f4 : equalFold "results" "results" = true := by decide
      simp only [Response.decodeMembers, Response.setField, f0, f1, f2, f3, f4, if_true,
        Bool.false_eq_true, if_false, ResultsAt_cons_self ms v _ e he]
      exact ih _ a b c d e hnd' hk' (IntAt_cons_ne ms _ _ v _ a (by decide) ha)
        (IntAt_cons_ne ms _ _ v _ b (by decide) hb)
        (IntAt_cons_ne ms _ _ v _ c (by decide) hc)
        (IntAt_cons_ne ms _ _ v _ d (by decide) hd)
        (Or.inl ⟨lookup_eq_none_of_not_mem _ ms hnot, rfl⟩)
    · simp only [Response.decodeMembers, Response.setField, g1, g2, g3, g4, g5,
        Bool.false_eq_true, if_false]
      exact ih r a b c d e hnd' hk'
        (IntAt_cons_ne ms _ k v _ a (beq_false_of_equalFold k _ g1) ha)
        (IntAt_cons_ne ms _ k v _ b (beq_false_of_equalFold k _ g2) hb)
        (IntAt_cons_ne ms _ k v _ c (beq_false_of_equalFold k _ g3) hc)
        (IntAt_cons_ne ms _ k v _ d (beq_false_of_equalFold k _ g4) hd)
        (ResultsAt_cons_ne ms k v _ e (beq_false_of_equalFold k _ g5) he)

/-- A body of the response schema decodes into the `Response` of its content. -/
theorem decodeResponsePtr_of_matches (d : ResponseDoc) (v : Json) (h : d.matches v = true) :
    decodeResponsePtr v = .ok (some
      { MulticastID := d.multicast_id, Success := d.success, Failure := d.failure,
        CanonicalIDs := d.canonical_ids,
        Results := some (d.results.map (fun e => some e.toResult)) }) := by
  cases v with
  | obj ms =>
    simp only [ResponseDoc.matches, Bool.and_eq_true, decide_eq_true_eq, List.all_eq_true]
      at h
    obtain ⟨⟨⟨⟨⟨⟨⟨⟨⟨⟨hnd, hk⟩, ha⟩, ha'⟩, hb⟩, hb'⟩, hc⟩, hc'⟩, hd⟩, hd'⟩, he⟩ := h
    have hres : ResultsAt ms none (some (d.results.map (fun e => some e.toResult))) := by
      right
      cases hl : ms.lookup "results" with
      | none => simp [hl] at he
      | some x =>
        cases x with
        | arr xs =>
          rw [hl] at he
          exact ⟨xs, d.results, rfl, he, rfl, rfl⟩
        | null => simp [hl] at he
        | bool b => simp [hl] at he
        | num n => simp [hl] at he
        | str s => simp [hl] at he
        | obj ys => simp [hl] at he
    have hdec := Response_decodeMembers_ok ms {} d.multicast_id d.success d.failure
      d.canonical_ids _ hnd hk (Or.inr ⟨ha, ha'⟩) (Or.inr ⟨hb, hb'⟩) (Or.inr ⟨hc, hc'⟩)
      (Or.inr ⟨hd, hd'⟩) hres
    simp only [decodeResponsePtr, hdec]
  | null => simp [ResponseDoc.matches] at h
  | bool b => simp [ResponseDoc.matches] at h
  | num n => simp [ResponseDoc.matches] at h
  | str s => simp [ResponseDoc.matches] at h
  | arr ys => simp [ResponseDoc.matches] at h

/-- What `Send` returns for an answer with status 200 whose body the decoder
reads as the value `v`. -/
theorem Send_of_value (f : FCM) (net : Transport) (message : Option Message)
    (req : Request) (resp : HttpResponse) (buf : String) (v : Json)
    (hs : (Send f net message).sent = [req]) (hn : net f.client req = .ok resp)
    (hc : resp.StatusCode = 200)
    (hr : readValue Scanner.init "" resp.Body.chunks resp.Body.err = (buf, .ok v)) :
    match decodeResponsePtr v with
    | .ok res => (Send f net message).res = res ∧ (Send f net message).err = none
    | .error _ => (Send f net message).res = none ∧
        (Send f net message).err = some (.errorf ("fcm: " ++ buf)) := by
  obtain ⟨b, hm, rfl⟩ := sent_eq f net message req hs
  rw [Send_of_marshal f net message b hm, hn]
  simp only [hc, ne_eq, not_true_eq_false, if_false, decodeBody, hr]
  cases decodeResponsePtr v with
  | ok res => exact ⟨rfl, rfl⟩
  | error e => exact ⟨rfl, rfl⟩

/-- C5: when the transport answers with status 200 and the body is a JSON
object of the response schema, `Send` returns no error and a `Response` whose
`MulticastID`, `Success`, `Failure` and `CanonicalIDs` are the integers of the
body and whose `Results` holds, in the order of the array `results`, one
entry for each element with its `message_id`, `registration_id` and `error`,
the empty string for an absent member. -/
theorem Send_decodes_schema_body (f : FCM) (net : Transport) (message : Option Message)
    (req : Request) (resp : HttpResponse) (buf : String) (v : Json) (d : ResponseDoc)
    (hs : (Send f net message).sent = [req]) (hn : net f.client req = .ok resp)
    (hc : resp.StatusCode = 200)
    (hr : readValue Scanner.init "" resp.Body.chunks resp.Body.err = (buf, .ok v))
    (hm : d.matches v = true) :
    (Send f net message).err = none ∧
    (Send f net message).res = some
      { MulticastID := d.multicast_id, Success := d.success, Failure := d.failure,
        CanonicalIDs := d.canonical_ids,
        Results := some (d.results.map (fun e => some
          { MessageID := e.message_id.getD "", RegistrationID := e.registration_id.getD "",
            Error := e.error.getD "" })) } := by
  have h := Send_of_value f net message req resp buf v hs hn hc hr
  rw [decodeResponsePtr_of_matches d v hm] at h
  exact ⟨h.2, h.1⟩

/-- C5 (witness): the sample response of the test file. -/
theorem Send_decodes_schema_body_witness :
    (Send ⟨"someServerKey12345678901234567890123456", ⟨1000000000⟩⟩
        (fun _ _ => .ok ⟨200, ⟨["\x7b\n\t\"multicast_id\": 216,\n\t\"success\": 3,\n\t\"failure\": 3,\n\t\"canonical_ids\": 1,\n\t\"results\": [\n\t\t\x7b \"message_id\": \"1:0408\" \x7d,\n\t\t\x7b \"error\": \"Unavailable\" \x7d,\n\t\t\x7b \"error\": \"InvalidRegistration\" \x7d,\n\t\t\x7b \"message_id\": \"1:1516\" \x7d,\n\t\t\x7b \"message_id\": \"1:2342\", \"registration_id\": \"32\" \x7d,\n\t\t\x7b \"error\": \"NotRegistered\"\x7d\n\t]\n\x7d\n"], none⟩⟩)
        (some (NewMessage "someDeviceToken"))).err = none ∧
    (Send ⟨"someServerKey12345678901234567890123456", ⟨1000000000⟩⟩
        (fun _ _ => .ok ⟨200, ⟨["\x7b\n\t\"multicast_id\": 216,\n\t\"success\": 3,\n\t\"failure\": 3,\n\t\"canonical_ids\": 1,\n\t\"results\": [\n\t\t\x7b \"message_id\": \"1:0408\" \x7d,\n\t\t\x7b \"error\": \"Unavailable\" \x7d,\n\t\t\x7b \"error\": \"InvalidRegistration\" \x7d,\n\t\t\x7b \"message_id\": \"1:1516\" \x7d,\n\t\t\x7b \"message_id\": \"1:2342\", \"registration_id\": \"32\" \x7d,\n\t\t\x7b \"error\": \"NotRegistered\"\x7d\n\t]\n\x7d\n"], none⟩⟩)
        (some (NewMessage "someDeviceToken"))).res = some
      { MulticastID := 216, Success := 3, Failure := 3, CanonicalIDs := 1,
        Results := some [some { MessageID := "1:0408" }, some { Error := "Unavailable" },
          some { Error := "InvalidRegistration" }, some { MessageID := "1:1516" },
          some { MessageID := "1:2342", RegistrationID := "32" },
          some { Error := "NotRegistered" }] } :=
  Send_decodes_schema_body ⟨"someServerKey12345678901234567890123456", ⟨1000000000⟩⟩
    (fun _ _ => .ok ⟨200, ⟨["\x7b\n\t\"multicast_id\": 216,\n\t\"success\": 3,\n\t\"failure\": 3,\n\t\"canonical_ids\": 1,\n\t\"results\": [\n\t\t\x7b \"message_id\": \"1:0408\" \x7d,\n\t\t\x7b \"error\": \"Unavailable\" \x7d,\n\t\t\x7b \"error\": \"InvalidRegistration\" \x7d,\n\t\t\x7b \"message_id\": \"1:1516\" \x7d,\n\t\t\x7b \"message_id\": \"1:2342\", \"registration_id\": \"32\" \x7d,\n\t\t\x7b \"error\": \"NotRegistered\"\x7d\n\t]\n\x7d\n"], none⟩⟩)
    (some (NewMessage "someDeviceToken")) _ _ _
    (.obj [("multicast_id", .num ⟨false, 216, none, none⟩),
      ("success", .num ⟨false, 3, none, none⟩), ("failure", .num ⟨false, 3, none, none⟩),
      ("canonical_ids", .num ⟨false, 1, none, none⟩),
      ("results", .arr [.obj [("message_id", .str "1:0408")],
        .obj [("error", .str "Unavailable")], .obj [("error", .str "InvalidRegistration")],
        .obj [("message_id", .str "1:1516")],
        .obj [("message_id", .str "1:2342"), ("registration_id", .str "32")],
        .obj [("error", .str "NotRegistered")]])])
    ⟨216, 3, 3, 1, [⟨some "1:0408", none, none⟩, ⟨none, none, some "Unavailable"⟩,
      ⟨none, none, some "InvalidRegistration"⟩, ⟨some "1:1516", none, none⟩,
      ⟨some "1:2342", some "32", none⟩, ⟨none, none, some "NotRegistered"⟩]⟩
    (Send_hands_transport_one_request_aux _ _ _ _ rfl) rfl rfl rfl (by decide)

/-- C8 (counterexample): for the answer 200 with a body whose `results` holds
an empty object, `Send` returns a `Response` with an entry in which neither
`MessageID` nor `Error` is populated. -/
theorem Send_result_with_neither_field :
    (Send ⟨"someServerKey12345678901234567890123456", ⟨1000000000⟩⟩
        (fun _ _ => .ok ⟨200, ⟨["\x7b\"results\":[\x7b\x7d]\x7d"], none⟩⟩)
        (some (NewMessage "someDeviceToken"))).res
      = some { Results := some [some { MessageID := "", RegistrationID := "", Error := "" }] } ∧
    (Send ⟨"someServerKey12345678901234567890123456", ⟨1000000000⟩⟩
        (fun _ _ => .ok ⟨200, ⟨["\x7b\"results\":[\x7b\x7d]\x7d"], none⟩⟩)
        (some (NewMessage "someDeviceToken"))).err = none := by
  decide

/-- C8 (amended): when the transport answers with status 200 and a body of the
response schema in which every element of `results` holds exactly one of
`message_id` and `error`, not empty, every entry of the `Results` that `Send`
returns has exactly one of `MessageID` and `Error` populated; `Send` makes no
such check of its own. -/
theorem Send_results_populated_as_body (f : FCM) (net : Transport)
    (message : Option Message) (req : Request) (resp : HttpResponse) (buf : String)
    (v : Json) (d : ResponseDoc)
    (hs : (Send f net message).sent = [req]) (hn : net f.client req = .ok resp)
    (hc : resp.StatusCode = 200)
    (hr : readValue Scanner.init "" resp.Body.chunks resp.Body.err = (buf, .ok v))
    (hm : d.matches v = true) (hone : ∀ e ∈ d.results, e.exactlyOne = true) :
    ∃ r rs, (Send f net message).res = some r ∧ r.Results = some rs ∧
      rs.length = d.results.length ∧
      ∀ o ∈ rs, ∃ x, o = some x ∧
        ((x.MessageID ≠ "" ∧ x.Error = "") ∨ (x.MessageID = "" ∧ x.Error ≠ "")) := by
  have h := Send_of_value f net message req resp buf v hs hn hc hr
  rw [decodeResponsePtr_of_matches d v hm] at h
  refine ⟨_, _, h.1, rfl, by simp, ?_⟩
  intro o ho
  obtain ⟨e, he, rfl⟩ := List.mem_map.mp ho
  refine ⟨e.toResult, rfl, ?_⟩
  have h1 := hone e he
  simp only [ResultDoc.toResult]
  simp only [ResultDoc.exactlyOne] at h1
  by_cases ha : e.message_id.getD "" = ""
  · by_cases hb : e.error.getD "" = ""
    · rw [ha, hb] at h1
      exact absurd h1 (by decide)
    · exact Or.inr ⟨ha, hb⟩
  · by_cases hb : e.error.getD "" = ""
    · exact Or.inl ⟨ha, hb⟩
    · have ha' : (e.message_id.getD "" != "") = true := bne_iff_ne.mpr ha
      have hb' : (e.error.getD "" != "") = true := bne_iff_ne.mpr hb
      rw [ha', hb'] at h1
      exact absurd h1 (by decide)

/-- C8 (witness): the sample response of the test file, whose every result
holds a message identifier or an error. -/
theorem Send_results_populated_as_body_witness :
    ∃ r rs,
      (Send ⟨"someServerKey12345678901234567890123456", ⟨1000000000⟩⟩
        (fun _ _ => .ok ⟨200, ⟨["\x7b\"multicast_id\":216,\"success\":1,\"failure\":1,\"canonical_ids\":0,\"results\":[\x7b\"message_id\":\"1:0408\"\x7d,\x7b\"error\":\"Unavailable\"\x7d]\x7d"], none⟩⟩)
        (some (NewMessage "someDeviceToken"))).res = some r ∧ r.Results = some rs ∧
      rs.length = [ResultDoc.mk (some "1:0408") none none,
        ResultDoc.mk none none (some "Unavailable")].length ∧
      ∀ o ∈ rs, ∃ x, o = some x ∧
        ((x.MessageID ≠ "" ∧ x.Error = "") ∨ (x.MessageID = "" ∧ x.Error ≠ "")) :=
  Send_results_populated_as_body ⟨"someServerKey12345678901234567890123456", ⟨1000000000⟩⟩
    (fun _ _ => .ok ⟨200, ⟨["\x7b\"multicast_id\":216,\"success\":1,\"failure\":1,\"canonical_ids\":0,\"results\":[\x7b\"message_id\":\"1:0408\"\x7d,\x7b\"error\":\"Unavailable\"\x7d]\x7d"], none⟩⟩)
    (some (NewMessage "someDeviceToken")) _ _ _
    (.obj [("multicast_id", .num ⟨false, 216, none, none⟩),
      ("success", .num ⟨false, 1, none, none⟩), ("failure", .num ⟨false, 1, none, none⟩),
      ("canonical_ids", .num ⟨false, 0, none, none⟩),
      ("results", .arr [.obj [("message_id", .str "1:0408")],
        .obj [("error", .str "Unavailable")]])])
    ⟨216, 1, 1, 0, [⟨some "1:0408", none, none⟩, ⟨none, none, some "Unavailable"⟩]⟩
    (Send_hands_transport_one_request_aux _ _ _ _ rfl) rfl rfl rfl (by decide) (by decide)

/-! ## The round trip of a message -/

/-- The literal 9007199254740993 read as a float64 is 9007199254740992. -/
theorem ofDecimal_2_pow_53_add_1 :
    F64.ofDecimal ⟨false, 9007199254740993, none, none⟩ = some ⟨false, 1, 53⟩ := by
  decide!

/-- A number decodes into an `interface{}` as the float64 it denotes. -/
theorem decodeAny_num (l : NumLit) (x : F64) (h : F64.ofDecimal l = some x) :
    decodeAny (.num l) = .ok (.float64 x) := by
  simp only [decodeAny, h]

/-- An object with one member decodes into one entry. -/
theorem decodeAnyMembers_single (k : String) (j : Json) (v : GoValue)
    (h : decodeAny j = .ok v) : decodeAnyMembers [(k, j)] = .ok [(k, v)] := by
  simp only [decodeAnyMembers, h]

/-- An object decodes into a nil map field as the map of its entries. -/
theorem decodeKeyValue_obj (ms : List (String × Json)) (kvs : List (String × GoValue))
    (h : decodeAnyMembers ms = .ok kvs) :
    decodeKeyValue none (.obj ms)
      = .ok (some (kvs.foldl (fun acc p => setKey acc p.1 p.2) [])) := by
  simp only [decodeKeyValue, h, Option.getD_none]

/-- C7 (counterexample): the integer 9007199254740993 stored under the key `n`
of `Data` is serialized and comes back as the float64 9007199254740992
(`1 * 2^53`), not as the value the message held. -/
theorem Message_int_payload_comes_back_changed :
    jsonMarshal (some { Data := some [("n", .int 9007199254740993)] })
      = .ok (.obj [("collapse_key", .str ""), ("priority", .num ⟨false, 0, none, none⟩),
          ("data", .obj [("n", .num ⟨false, 9007199254740993, none, none⟩)])]) ∧
    ∃ m', decodeMessage (.obj [("collapse_key", .str ""),
          ("priority", .num ⟨false, 0, none, none⟩),
          ("data", .obj [("n", .num ⟨false, 9007199254740993, none, none⟩)])]) = .ok m' ∧
      m'.Data.Get "n" = .float64 ⟨false, 1, 53⟩ ∧
      m'.Data.Get "n" ≠ KeyValue.Get (some [("n", .int 9007199254740993)]) "n" := by
  constructor
  · rfl
  · have h1 : ({} : Message).setField "collapse_key" (.str "") = .ok {} := rfl
    have h2 : ({} : Message).setField "priority" (.num ⟨false, 0, none, none⟩) = .ok {} := rfl
    have h3 : decodeKeyValue none (.obj [("n", .num ⟨false, 9007199254740993, none, none⟩)])
        = .ok (some [("n", .float64 ⟨false, 1, 53⟩)]) := by
      rw [decodeKeyValue_obj _ _ (decodeAnyMembers_single "n" _ _
        (decodeAny_num _ _ ofDecimal_2_pow_53_add_1))]
      rfl
    have h4 : ({} : Message).setField "data"
        (.obj [("n", .num ⟨false, 9007199254740993, none, none⟩)])
        = .ok { Data := some [("n", .float64 ⟨false, 1, 53⟩)] } := by
      have f : ∀ v, ({} : Message).setField "data" v
          = match decodeKeyValue none v with
            | .ok d => .ok { Data := d }
            | .error e => .error e := fun v => rfl
      rw [f, h3]
    refine ⟨{ Data := some [("n", .float64 ⟨false, 1, 53⟩)] }, ?_, rfl, ?_⟩
    · simp only [decodeMessage, Message.decodeMembers, h1, h2, h4]
    · intro h
      have h' : GoValue.float64 ⟨false, 1, 53⟩ = GoValue.int 9007199254740993 := h
      cases h'

/-- The literal of an integer denotes that integer. -/
theorem toInt?_ofInt (n : Int) : (NumLit.ofInt n).toInt? = some n := by
  simp only [NumLit.ofInt, NumLit.toInt?, Option.some.injEq]
  by_cases h : n < 0
  · simp only [h, decide_True, if_true]
    omega
  · simp only [h, decide_False, Bool.false_eq_true, if_false]
    omega

/-- The literal of an integer within `int` decodes into an `int` field. -/
theorem decodeInt_ofInt (cur n : Int) (h : inIntRange n = true) :
    decodeInt cur (.num (NumLit.ofInt n)) = .ok n := by
  simp only [decodeInt, toInt?_ofInt, h, if_true]

/-- The magnitudes of the 64-bit integers are below the overflow bound. -/
theorem two_pow_64_le_overflow : 2 ^ 64 ≤ F64.overflow := by
  decide!

/-- The literal of a 64-bit integer reads as the float64 nearest to it. -/
theorem ofDecimal_ofInt (n : Int) (h1 : -(2 : Int) ^ 63 ≤ n) (h2 : n < (2 : Int) ^ 64) :
    F64.ofDecimal (NumLit.ofInt n) = some (F64.ofInt n) := by
  have hb : n.natAbs < 2 ^ 64 := by omega
  have hlt : ¬ (F64.overflow ≤ n.natAbs) := by
    have := two_pow_64_le_overflow
    omega
  simp only [F64.ofDecimal, NumLit.scaled, NumLit.ofInt, Option.getD_none, List.foldl_nil,
    List.length_nil, Nat.cast_zero, sub_zero, le_refl, if_true, Int.toNat_zero, pow_zero,
    mul_one, one_mul, hlt, if_false, F64.ofInt]

/-- Storing under a key above all the keys of a map adds the entry at the end. -/
theorem setKey_append {α : Type} (k : String) (v : α) :
    ∀ (acc : List (String × α)), (∀ p ∈ acc, p.1 < k) → setKey acc k v = acc ++ [(k, v)] := by
  intro acc
  induction acc with
  | nil => intro _; rfl
  | cons p acc ih =>
    intro h
    obtain ⟨k', v'⟩ := p
    have hlt : k' < k := h (k', v') (List.mem_cons_self _ _)
    have h1 : ¬ k < k' := not_lt_of_gt hlt
    have h2 : ¬ k = k' := ne_of_gt hlt
    simp only [setKey, h1, h2, if_false, List.cons_append]
    rw [ih (fun p hp => h p (List.mem_cons_of_mem _ hp))]

/-- Storing entries of increasing keys one after the other, above the keys of
the map, adds them in order. -/
theorem foldl_setKey {α : Type} :
    ∀ (kvs acc : List (String × α)), keysIncreasing kvs →
      (∀ p ∈ acc, ∀ q ∈ kvs, p.1 < q.1) →
      kvs.foldl (fun a p => setKey a p.1 p.2) acc = acc ++ kvs := by
  intro kvs
  induction kvs with
  | nil => intro acc _ _; simp
  | cons q kvs ih =>
    intro acc hk hacc
    simp only [keysIncreasing, List.map_cons, List.pairwise_cons] at hk
    simp only [List.foldl_cons]
    rw [setKey_append q.1 q.2 acc (fun p hp => hacc p hp q (List.mem_cons_self _ _))]
    rw [ih (acc ++ [(q.1, q.2)]) hk.2]
    · simp
    · intro p hp r hr
      rcases List.mem_append.mp hp with hp | hp
      · exact hacc p hp r (List.mem_cons_of_mem _ hr)
      · simp only [List.mem_singleton] at hp
        subst hp
        exact hk.1 r.1 (List.mem_map_of_mem _ hr)

/-- The entries that come back keep their keys. -/
theorem jsonImageEntries_keys :
    ∀ (kvs : List (String × GoValue)),
      (jsonImageEntries kvs).map Prod.fst = kvs.map Prod.fst := by
  intro kvs
  induction kvs with
  | nil => rfl
  | cons p kvs ih =>
    obtain ⟨k, v⟩ := p
    simp only [jsonImageEntries, List.map_cons, ih]

/-- The literal json.Marshal writes for a float64 reads back as that float64. -/
theorem ofDecimal_format (x : F64) (l : NumLit) (h : x.format = some l) :
    F64.ofDecimal l = some x := by
  have := List.find?_some h
  simpa using this

mutual
/-- A payload value comes back from its JSON document as `jsonImage` says. -/
theorem decodeAny_marshalValue :
    ∀ (v : GoValue) (j : Json), v.WF → marshalValue v = .ok j →
      decodeAny j = .ok (jsonImage v)
  | .nil, j, _, h => by
    simp only [marshalValue, Except.ok.injEq] at h
    subst h
    rfl
  | .bool b, j, _, h => by
    simp only [marshalValue, Except.ok.injEq] at h
    subst h
    rfl
  | .int n, j, hw, h => by
    simp only [marshalValue, Except.ok.injEq] at h
    subst h
    simp only [GoValue.WF] at hw
    exact decodeAny_num _ _ (ofDecimal_ofInt n hw.1 hw.2)
  | .float64 x, j, _, h => by
    simp only [marshalValue] at h
    cases hf : x.format with
    | none => simp [hf] at h
    | some l =>
      simp only [hf, Except.ok.injEq] at h
      subst h
      exact decodeAny_num _ _ (ofDecimal_format x l hf)
  | .str s, j, _, h => by
    simp only [marshalValue, Except.ok.injEq] at h
    subst h
    rfl
  | .slice xs, j, hw, h => by
    simp only [marshalValue] at h
    cases hm : marshalList xs with
    | error e => simp [hm] at h
    | ok js =>
      simp only [hm, Except.ok.injEq] at h
      subst h
      simp only [GoValue.WF] at hw
      simp only [decodeAny, decodeAnyList_marshalList xs js hw hm, jsonImage]
  | .map kvs, j, hw, h => by
    simp only [marshalValue] at h
    cases hm : marshalEntries kvs with
    | error e => simp [hm] at h
    | ok ms =>
      simp only [hm, Except.ok.injEq] at h
      subst h
      simp only [GoValue.WF] at hw
      have hk : keysIncreasing (jsonImageEntries kvs) := by
        simpa only [keysIncreasing, jsonImageEntries_keys] using hw.1
      simp only [decodeAny, decodeAnyMembers_marshalEntries kvs ms hw.2 hm, jsonImage]
      rw [foldl_setKey (jsonImageEntries kvs) [] hk (by simp)]
      rfl
  | .unsupported why, j, _, h => by
    simp [marshalValue] at h
/-- The elements of a slice come back from their documents in order. -/
theorem decodeAnyList_marshalList :
    ∀ (xs : List GoValue) (js : List Json), GoValue.WFList xs → marshalList xs = .ok js →
      decodeAnyList js = .ok (jsonImageList xs)
  | [], js, _, h => by
    simp only [marshalList, Except.ok.injEq] at h
    subst h
    rfl
  | x :: xs, js, hw, h => by
    simp only [marshalList] at h
    cases hx : marshalValue x with
    | error e => simp [hx] at h
    | ok j =>
      cases hm : marshalList xs with
      | error e => simp [hx, hm] at h
      | ok js' =>
        simp only [hx, hm, Except.ok.injEq] at h
        subst h
        simp only [GoValue.WFList] at hw
        simp only [decodeAnyList, decodeAny_marshalValue x j hw.1 hx,
          decodeAnyList_marshalList xs js' hw.2 hm, jsonImageList]
/-- The entries of a map come back from their members in order. -/
theorem decodeAnyMembers_marshalEntries :
    ∀ (kvs : List (String × GoValue)) (ms : List (String × Json)),
      GoValue.WFEntries kvs → marshalEntries kvs = .ok ms →
      decodeAnyMembers ms = .ok (jsonImageEntries kvs)
  | [], ms, _, h => by
    simp only [marshalEntries, Except.ok.injEq] at h
    subst h
    rfl
  | (k, x) :: kvs, ms, hw, h => by
    simp only [marshalEntries] at h
    cases hx : marshalValue x with
    | error e => simp [hx] at h
    | ok j =>
      cases hm : marshalEntries kvs with
      | error e => simp [hx, hm] at h
      | ok ms' =>
        simp only [hx, hm, Except.ok.injEq] at h
        subst h
        simp only [GoValue.WFEntries] at hw
        simp only [decodeAnyMembers, decodeAny_marshalValue x j hw.1 hx,
          decodeAnyMembers_marshalEntries kvs ms' hw.2 hm, jsonImageEntries]
end

/-- The literals of some float64s, as `strconv.AppendFloat` writes them for
`json.Marshal`: `0.1`, `3.14`, `-0.625`, `100000000000000000000`, `1e+21`,
`0.000001`, `1e-7`, the least `5e-324` and the largest
`1.7976931348623157e+308`. -/
theorem format_examples :
    F64.format ⟨false, 3602879701896397, -55⟩ = some ⟨false, 0, some [1], none⟩ ∧
    F64.format ⟨false, 7070651414971679, -51⟩ = some ⟨false, 3, some [1, 4], none⟩ ∧
    F64.format ⟨true, 5, -3⟩ = some ⟨true, 0, some [6, 2, 5], none⟩ ∧
    F64.format ⟨false, 95367431640625, 20⟩ = some ⟨false, 100000000000000000000, none, none⟩ ∧
    F64.format ⟨false, 476837158203125, 21⟩ = some ⟨false, 1, none, some (false, 21)⟩ ∧
    F64.format ⟨false, 4722366482869645, -72⟩ = some ⟨false, 0, some [0, 0, 0, 0, 0, 1], none⟩ ∧
    F64.format ⟨false, 944473296573929, -73⟩ = some ⟨false, 1, none, some (true, 7)⟩ ∧
    F64.format ⟨false, 1, -1074⟩ = some ⟨false, 5, none, some (true, 324)⟩ ∧
    F64.format ⟨false, 9007199254740991, 971⟩ =
      some ⟨false, 1, some [7, 9, 7, 6, 9, 3, 1, 3, 4, 8, 6, 2, 3, 1, 5, 7], some (false, 308)⟩ := by
  refine ⟨?_, ?_, ?_, ?_, ?_, ?_, ?_, ?_, ?_⟩ <;> decide!

/-- A message whose payload holds float64s is serialized, and they come back
as they are. -/
theorem float64_payload_round_trip :
    marshalValue (.slice [.float64 ⟨false, 3602879701896397, -55⟩, .float64 ⟨true, 5, -3⟩]) =
      .ok (.arr [.num ⟨false, 0, some [1], none⟩, .num ⟨true, 0, some [6, 2, 5], none⟩]) ∧
    decodeAny (.arr [.num ⟨false, 0, some [1], none⟩, .num ⟨true, 0, some [6, 2, 5], none⟩]) =
      .ok (.slice [.float64 ⟨false, 3602879701896397, -55⟩, .float64 ⟨true, 5, -3⟩]) := by
  have h1 : F64.format ⟨false, 3602879701896397, -55⟩ = some ⟨false, 0, some [1], none⟩ := by
    decide!
  have h2 : F64.format ⟨true, 5, -3⟩ = some ⟨true, 0, some [6, 2, 5], none⟩ := by decide!
  have h3 := ofDecimal_format _ _ h1
  have h4 := ofDecimal_format _ _ h2
  constructor
  · simp only [marshalValue, marshalList, h1, h2]
  · simp only [decodeAny, decodeAnyList, h3, h4]

/-! ## The float64 nearest to an integer -/

/-- Rounding a quotient by one gives the numerator. -/
theorem roundHalfEven_one (n : Nat) : roundHalfEven n 1 = n := by
  simp [roundHalfEven, Nat.mod_one]

/-- No multiple of `d` is nearer to `a` than `roundHalfEven a d` times `d`. -/
theorem roundHalfEven_nearest (a d : Nat) (hd : 0 < d) (j : Int) :
    |((roundHalfEven a d : Nat) : Int) * d - a| ≤ |j * d - a| := by
  have hdiv : d * (a / d) + a % d = a := Nat.div_add_mod a d
  have hmod : a % d < d := Nat.mod_lt a hd
  generalize hk : a / d = k at hdiv
  generalize hr : a % d = r at hdiv hmod
  have hA : (a : Int) = d * k + r := by exact_mod_cast hdiv.symm
  have hdpos : (0 : Int) < d := by exact_mod_cast hd
  have hr0 : (0 : Int) ≤ r := Int.natCast_nonneg r
  have hrd : (r : Int) < d := by exact_mod_cast hmod
  -- distance of the multiple `j * d` from `a`
  have key : ∀ (t : Int), (t = r ∨ t = d - r) → (2 * t ≤ d) → t ≤ |j * d - a| := by
    intro t ht h2
    rcases le_or_lt j k with hj | hj
    · have : j * d ≤ k * d := mul_le_mul_of_nonneg_right hj hdpos.le
      rw [abs_of_nonpos (by rw [hA]; nlinarith)]
      rcases ht with rfl | rfl <;> rw [hA] <;> nlinarith
    · have : (k + 1) * d ≤ j * d := mul_le_mul_of_nonneg_right (by omega) hdpos.le
      rw [abs_of_nonneg (by rw [hA]; nlinarith)]
      rcases ht with rfl | rfl <;> rw [hA] <;> nlinarith
  simp only [roundHalfEven, hk, hr]
  split
  · rename_i h
    have h' : (2 : Int) * r < d := by exact_mod_cast h
    have e : |((k : Nat) : Int) * d - a| = r := by
      rw [hA, abs_of_nonpos (by nlinarith)]; ring
    rw [e]
    exact key r (Or.inl rfl) h'.le
  · split
    · rename_i h1 h
      have h' : (d : Int) < 2 * r := by exact_mod_cast h
      have e : |((k + 1 : Nat) : Int) * d - a| = d - r := by
        rw [hA, abs_of_nonneg (by push_cast; nlinarith)]; push_cast; ring
      rw [e]
      exact key (d - r) (Or.inr rfl) (by linarith)
    · rename_i h1 h2
      have h' : (2 : Int) * r = d := by
        have a1 : ¬ (2 * r < d) := h1
        have a2 : ¬ (d < 2 * r) := h2
        have : 2 * r = d := by omega
        exact_mod_cast this
      split
      · have e : |((k : Nat) : Int) * d - a| = r := by
          rw [hA, abs_of_nonpos (by nlinarith)]; ring
        rw [e]
        exact key r (Or.inl rfl) h'.le
      · have e : |((k + 1 : Nat) : Int) * d - a| = d - r := by
          rw [hA, abs_of_nonneg (by push_cast; nlinarith)]; push_cast; ring
        rw [e]
        exact key (d - r) (Or.inr rfl) (by linarith)

/-- The rounded quotient is at most one above the quotient. -/
theorem roundHalfEven_le (a d : Nat) : roundHalfEven a d ≤ a / d + 1 := by
  simp only [roundHalfEven]
  split
  · omega
  · split
    · omega
    · split <;> omega

/-- The rounded quotient is at least the quotient. -/
theorem le_roundHalfEven (a d : Nat) : a / d ≤ roundHalfEven a d := by
  simp only [roundHalfEven]
  split
  · omega
  · split
    · omega
    · split <;> omega

/-- The highest set bit of a positive number. -/
theorem bitLog_spec : ∀ (fuel n : Nat), 1 ≤ n → n ≤ fuel →
    2 ^ bitLog fuel n ≤ n ∧ n < 2 ^ (bitLog fuel n + 1) := by
  intro fuel
  induction fuel with
  | zero => intro n h1 h2; omega
  | succ fuel ih =>
    intro n h1 h2
    by_cases h : 2 ≤ n
    · simp only [bitLog, h, if_true]
      obtain ⟨i1, i2⟩ := ih (n / 2) (by omega) (by omega)
      rw [pow_succ] at i2 ⊢
      rw [pow_succ]
      constructor <;> omega
    · simp only [bitLog, h, if_false]
      have : n = 1 := by omega
      subst this
      norm_num

/-- Moving factors of two into the exponent keeps the number. -/
theorem normalize_value : ∀ (fuel m : Nat) (e : Int),
    ((F64.normalize fuel m e).1 : ℚ) * (2 : ℚ) ^ (F64.normalize fuel m e).2
      = (m : ℚ) * (2 : ℚ) ^ e := by
  intro fuel
  induction fuel with
  | zero => intro m e; rfl
  | succ fuel ih =>
    intro m e
    by_cases h : m ≠ 0 ∧ m % 2 = 0
    · have hstep : F64.normalize (fuel + 1) m e = F64.normalize fuel (m / 2) (e + 1) := by
        simp only [F64.normalize]
        exact if_pos h
      rw [hstep, ih]
      have hm : (m : ℚ) = 2 * ((m / 2 : Nat) : ℚ) := by
        have : m = 2 * (m / 2) := by omega
        exact_mod_cast this
      rw [hm, zpow_add_one₀ (by norm_num : (2 : ℚ) ≠ 0)]
      ring
    · have hstep : F64.normalize (fuel + 1) m e = (m, e) := by
        simp only [F64.normalize]
        exact if_neg h
      rw [hstep]

/-- Moving factors of two into the exponent leaves an odd mantissa. -/
theorem normalize_odd : ∀ (fuel m : Nat) (e : Int), m ≠ 0 → m < 2 ^ fuel →
    (F64.normalize fuel m e).1 % 2 = 1 := by
  intro fuel
  induction fuel with
  | zero => intro m e h1 h2; simp at h2; omega
  | succ fuel ih =>
    intro m e h1 h2
    by_cases h : m ≠ 0 ∧ m % 2 = 0
    · have hstep : F64.normalize (fuel + 1) m e = F64.normalize fuel (m / 2) (e + 1) := by
        simp only [F64.normalize]
        exact if_pos h
      rw [hstep]
      apply ih
      · omega
      · rw [pow_succ] at h2
        omega
    · have hstep : F64.normalize (fuel + 1) m e = (m, e) := by
        simp only [F64.normalize]
        exact if_neg h
      rw [hstep]
      simp only [not_and] at h
      have := h h1
      omega

/-- Moving factors of two into the exponent does not lower the exponent. -/
theorem normalize_exp : ∀ (fuel m : Nat) (e : Int), e ≤ (F64.normalize fuel m e).2 := by
  intro fuel
  induction fuel with
  | zero => intro m e; exact le_refl _
  | succ fuel ih =>
    intro m e
    by_cases h : m ≠ 0 ∧ m % 2 = 0
    · have hstep : F64.normalize (fuel + 1) m e = F64.normalize fuel (m / 2) (e + 1) := by
        simp only [F64.normalize]
        exact if_pos h
      rw [hstep]
      have := ih (m / 2) (e + 1)
      omega
    · have hstep : F64.normalize (fuel + 1) m e = (m, e) := by
        simp only [F64.normalize]
        exact if_neg h
      rw [hstep]

/-- Moving factors of two into the exponent does not raise the mantissa. -/
theorem normalize_mant : ∀ (fuel m : Nat) (e : Int), (F64.normalize fuel m e).1 ≤ m := by
  intro fuel
  induction fuel with
  | zero => intro m e; exact le_refl _
  | succ fuel ih =>
    intro m e
    by_cases h : m ≠ 0 ∧ m % 2 = 0
    · have hstep : F64.normalize (fuel + 1) m e = F64.normalize fuel (m / 2) (e + 1) := by
        simp only [F64.normalize]
        exact if_pos h
      rw [hstep]
      have := ih (m / 2) (e + 1)
      omega
    · have hstep : F64.normalize (fuel + 1) m e = (m, e) := by
        simp only [F64.normalize]
        exact if_neg h
      rw [hstep]

/-- The binade of a positive integer. -/
theorem floorLog2_int (a : Nat) (h1 : 1 ≤ a) : floorLog2 a 1 = (bitLog a a : Int) := by
  have hL := (bitLog_spec a a h1 le_rfl).1
  have h0 : bitLog 1 1 = 0 := rfl
  simp only [floorLog2, h0, Nat.cast_zero, sub_zero, geTwoPow, Int.natCast_nonneg, if_true,
    Int.toNat_ofNat, one_mul, hL, decide_True]

/-- The mantissa and the exponent the rounding of a positive integer gives,
before the factors of two move. -/
theorem nearest_int (neg : Bool) (a : Nat) (h1 : 1 ≤ a) :
    F64.nearest neg a 1 =
      (if (F64.normalize 64
          (if (0 : Int) ≤ (bitLog a a : Int) - 52
            then roundHalfEven a (2 ^ ((bitLog a a : Int) - 52).toNat)
            else a * 2 ^ (-((bitLog a a : Int) - 52)).toNat)
          ((bitLog a a : Int) - 52)).1 = 0 then ⟨neg, 0, 0⟩
       else ⟨neg,
        (F64.normalize 64
          (if (0 : Int) ≤ (bitLog a a : Int) - 52
            then roundHalfEven a (2 ^ ((bitLog a a : Int) - 52).toNat)
            else a * 2 ^ (-((bitLog a a : Int) - 52)).toNat)
          ((bitLog a a : Int) - 52)).1,
        (F64.normalize 64
          (if (0 : Int) ≤ (bitLog a a : Int) - 52
            then roundHalfEven a (2 ^ ((bitLog a a : Int) - 52).toNat)
            else a * 2 ^ (-((bitLog a a : Int) - 52)).toNat)
          ((bitLog a a : Int) - 52)).2⟩) := by
  have ha : a ≠ 0 := by omega
  have hq : ¬ ((bitLog a a : Int) - 52 < -1074) := by omega
  simp only [F64.nearest, ha, if_false, floorLog2_int a h1, hq, one_mul, roundHalfEven_one]

/-- The rounding of an integer of at most 53 bits is the integer itself. -/
theorem nearest_int_exact (neg : Bool) (a : Nat) (h1 : 1 ≤ a) (hL : bitLog a a ≤ 52) :
    ((F64.nearest neg a 1).mant : ℚ) * (2 : ℚ) ^ (F64.nearest neg a 1).exp = a ∧
    (F64.nearest neg a 1).neg = neg ∧ (F64.nearest neg a 1).mant < 2 ^ 53 ∧
    -1074 ≤ (F64.nearest neg a 1).exp := by
  obtain ⟨b1, b2⟩ := bitLog_spec a a h1 le_rfl
  generalize hLdef : bitLog a a = L at *
  -- the mantissa before the factors of two move
  have hm : (if (0 : Int) ≤ (L : Int) - 52 then roundHalfEven a (2 ^ ((L : Int) - 52).toNat)
      else a * 2 ^ (-((L : Int) - 52)).toNat) = a * 2 ^ (52 - L) := by
    by_cases h0 : (0 : Int) ≤ (L : Int) - 52
    · have : L = 52 := by omega
      subst this
      simp [roundHalfEven_one]
    · have e : (-((L : Int) - 52)).toNat = 52 - L := by omega
      simp only [h0, if_false, e]
  have hpow : 2 ^ (L + 1) * 2 ^ (52 - L) = 2 ^ 53 := by
    rw [← pow_add]
    congr 1
    omega
  have hmlt : a * 2 ^ (52 - L) < 2 ^ 53 := by
    have hp : 0 < 2 ^ (52 - L) := Nat.pow_pos (by norm_num)
    calc a * 2 ^ (52 - L) < 2 ^ (L + 1) * 2 ^ (52 - L) := Nat.mul_lt_mul_of_pos_right b2 hp
      _ = 2 ^ 53 := hpow
  have hmpos : a * 2 ^ (52 - L) ≠ 0 := by
    have hp : 0 < 2 ^ (52 - L) := Nat.pow_pos (by norm_num)
    exact Nat.ne_of_gt (Nat.mul_pos h1 hp)
  have hodd := normalize_odd 64 (a * 2 ^ (52 - L)) ((L : Int) - 52) hmpos
    (lt_trans hmlt (by norm_num))
  have hne : (F64.normalize 64 (a * 2 ^ (52 - L)) ((L : Int) - 52)).1 ≠ 0 := by omega
  have hval := normalize_value 64 (a * 2 ^ (52 - L)) ((L : Int) - 52)
  have hmant := normalize_mant 64 (a * 2 ^ (52 - L)) ((L : Int) - 52)
  have hexp := normalize_exp 64 (a * 2 ^ (52 - L)) ((L : Int) - 52)
  rw [nearest_int neg a h1, hLdef, hm, if_neg hne]
  refine ⟨?_, rfl, lt_of_le_of_lt hmant hmlt, le_trans (by omega) hexp⟩
  show ((F64.normalize 64 (a * 2 ^ (52 - L)) ((L : Int) - 52)).1 : ℚ)
    * (2 : ℚ) ^ (F64.normalize 64 (a * 2 ^ (52 - L)) ((L : Int) - 52)).2 = a
  rw [hval]
  have e2 : ((L : Int) - 52) = -((52 - L : Nat) : Int) := by omega
  rw [e2, zpow_neg, zpow_natCast]
  push_cast
  have hp : ((2 : ℚ) ^ (52 - L)) ≠ 0 := pow_ne_zero _ (by norm_num)
  field_simp

/-- The rounding of an integer of 54 to 64 bits: a float64, at least as near
to the integer as any number of a mantissa of 53 bits. -/
theorem nearest_int_round (neg : Bool) (a : Nat) (h1 : 1 ≤ a) (h2 : a < 2 ^ 64)
    (hL : 53 ≤ bitLog a a) :
    (F64.nearest neg a 1).neg = neg ∧ (F64.nearest neg a 1).mant < 2 ^ 53 ∧
    -1074 ≤ (F64.nearest neg a 1).exp ∧
    ((F64.nearest neg a 1).mant : ℚ) * (2 : ℚ) ^ (F64.nearest neg a 1).exp < 2 ^ 1024 ∧
    |((F64.nearest neg a 1).mant : ℚ) * (2 : ℚ) ^ (F64.nearest neg a 1).exp - a| ≤ a ∧
    ∀ (m' : Nat) (e' : Int), m' < 2 ^ 53 →
      |((F64.nearest neg a 1).mant : ℚ) * (2 : ℚ) ^ (F64.nearest neg a 1).exp - a|
        ≤ |(m' : ℚ) * (2 : ℚ) ^ e' - a| := by
  obtain ⟨b1, b2⟩ := bitLog_spec a a h1 le_rfl
  generalize hLdef : bitLog a a = L at *
  have hL63 : L ≤ 63 := by
    by_contra hc
    have : 2 ^ 64 ≤ 2 ^ L := Nat.pow_le_pow_right (by norm_num) (by omega)
    omega
  obtain ⟨k, hk⟩ : ∃ k, L = 52 + k := ⟨L - 52, by omega⟩
  subst hk
  have hk1 : 1 ≤ k := by omega
  have hk11 : k ≤ 11 := by omega
  have hD : 0 < 2 ^ k := Nat.pow_pos (by norm_num)
  have hq : ((52 + k : Nat) : Int) - 52 = (k : Int) := by omega
  have hm : (if (0 : Int) ≤ ((52 + k : Nat) : Int) - 52
      then roundHalfEven a (2 ^ (((52 + k : Nat) : Int) - 52).toNat)
      else a * 2 ^ (-(((52 + k : Nat) : Int) - 52)).toNat) = roundHalfEven a (2 ^ k) := by
    rw [hq]
    simp
  have hpowL : 2 ^ 52 * 2 ^ k = 2 ^ (52 + k) := (pow_add 2 52 k).symm
  have hlo : 2 ^ 52 ≤ a / 2 ^ k := by
    rw [Nat.le_div_iff_mul_le hD, hpowL]
    exact b1
  have hhi : a / 2 ^ k < 2 ^ 53 := by
    rw [Nat.div_lt_iff_lt_mul hD]
    have : 2 ^ (52 + k + 1) = 2 ^ 53 * 2 ^ k := by
      rw [← pow_add]
      congr 1
      omega
    omega
  have hmlo := le_roundHalfEven a (2 ^ k)
  have hmhi := roundHalfEven_le a (2 ^ k)
  generalize hmdef : roundHalfEven a (2 ^ k) = m at *
  have hm0 : m ≠ 0 := by
    have : 0 < 2 ^ 52 := by norm_num
    omega
  have hm53 : m ≤ 2 ^ 53 := by omega
  have hodd := normalize_odd 64 m (k : Int) hm0 (lt_of_le_of_lt hm53 (by norm_num))
  have hne : (F64.normalize 64 m (k : Int)).1 ≠ 0 := by omega
  have hval := normalize_value 64 m (k : Int)
  have hmant := normalize_mant 64 m (k : Int)
  have hexp := normalize_exp 64 m (k : Int)
  rw [nearest_int neg a h1, hLdef, hm, hq, if_neg hne]
  show _ ∧ (F64.normalize 64 m (k : Int)).1 < 2 ^ 53 ∧
    -1074 ≤ (F64.normalize 64 m (k : Int)).2 ∧
    ((F64.normalize 64 m (k : Int)).1 : ℚ) * (2 : ℚ) ^ (F64.normalize 64 m (k : Int)).2
      < 2 ^ 1024 ∧
    |((F64.normalize 64 m (k : Int)).1 : ℚ) * (2 : ℚ) ^ (F64.normalize 64 m (k : Int)).2 - a|
      ≤ a ∧
    ∀ (m' : Nat) (e' : Int), m' < 2 ^ 53 →
      |((F64.normalize 64 m (k : Int)).1 : ℚ) * (2 : ℚ) ^ (F64.normalize 64 m (k : Int)).2
        - a| ≤ |(m' : ℚ) * (2 : ℚ) ^ e' - a|
  rw [hval, zpow_natCast]
  -- the rounding lemma, among the rationals
  have hR : ∀ j : Int, |(m : ℚ) * (2 : ℚ) ^ k - a| ≤ |(j : ℚ) * (2 : ℚ) ^ k - a| := by
    intro j
    have h := roundHalfEven_nearest a (2 ^ k) hD j
    rw [hmdef] at h
    have h' := (Int.cast_le (R := ℚ)).mpr h
    simpa [Int.cast_abs] using h'
  have hmant53 : (F64.normalize 64 m (k : Int)).1 < 2 ^ 53 := by
    have : (2 : Nat) ^ 53 % 2 = 0 := by norm_num
    omega
  have ha0 : (0 : ℚ) ≤ a := Nat.cast_nonneg a
  refine ⟨rfl, hmant53, by omega, ?_, ?_, ?_⟩
  · have hmq : (m : ℚ) ≤ 2 ^ 53 := by exact_mod_cast hm53
    have hkq : (2 : ℚ) ^ k ≤ 2 ^ 11 := pow_le_pow_right₀ (by norm_num) hk11
    have hpos : (0 : ℚ) ≤ 2 ^ k := by positivity
    calc (m : ℚ) * 2 ^ k ≤ 2 ^ 53 * 2 ^ 11 := mul_le_mul hmq hkq hpos (by norm_num)
      _ < 2 ^ 1024 := by
        rw [← pow_add]
        exact pow_lt_pow_right₀ (by norm_num) (by norm_num)
  · have h0 := hR 0
    simpa [abs_of_nonneg ha0] using h0
  · intro m' e' hm'
    rcases le_or_lt (k : Int) e' with he | he
    · obtain ⟨t, ht⟩ : ∃ t : Nat, e' = (k : Int) + t := ⟨(e' - k).toNat, by omega⟩
      have h := hR ((m' * 2 ^ t : Nat) : Int)
      have e : (m' : ℚ) * (2 : ℚ) ^ e' = (((m' * 2 ^ t : Nat) : Int) : ℚ) * (2 : ℚ) ^ k := by
        rw [ht, zpow_add₀ (by norm_num : (2 : ℚ) ≠ 0), zpow_natCast, zpow_natCast]
        push_cast
        ring
      rw [e]
      exact h
    · -- a number of a lower exponent lies below `2 ^ (52 + k)`
      have hY : (m' : ℚ) * (2 : ℚ) ^ e' < 2 ^ (52 + k) := by
        have h1' : (2 : ℚ) ^ e' ≤ (2 : ℚ) ^ ((k : Int) - 1) :=
          zpow_le_zpow_right₀ (by norm_num) (by omega)
        have h2' : (2 : ℚ) ^ ((k : Int) - 1) = 2 ^ (k - 1) := by
          have : (k : Int) - 1 = ((k - 1 : Nat) : Int) := by omega
          rw [this, zpow_natCast]
        have hm'q : (m' : ℚ) < 2 ^ 53 := by exact_mod_cast hm'
        have hpos : (0 : ℚ) < 2 ^ (k - 1) := by positivity
        have h3 : (2 : ℚ) ^ 53 * 2 ^ (k - 1) = 2 ^ (52 + k) := by
          rw [← pow_add]
          congr 1
          omega
        calc (m' : ℚ) * (2 : ℚ) ^ e' ≤ (m' : ℚ) * 2 ^ (k - 1) := by
              rw [← h2']
              exact mul_le_mul_of_nonneg_left h1' (Nat.cast_nonneg m')
          _ < 2 ^ 53 * 2 ^ (k - 1) := mul_lt_mul_of_pos_right hm'q hpos
          _ = 2 ^ (52 + k) := h3
      have hLa : ((2 : ℚ) ^ (52 + k)) ≤ a := by exact_mod_cast b1
      have h := hR ((2 ^ 52 : Nat) : Int)
      have e : (((2 ^ 52 : Nat) : Int) : ℚ) * (2 : ℚ) ^ k = 2 ^ (52 + k) := by
        rw [pow_add]
        norm_num
      rw [e, abs_of_nonpos (by linarith : (2 : ℚ) ^ (52 + k) - a ≤ 0)] at h
      rw [abs_of_nonpos (by linarith : (m' : ℚ) * (2 : ℚ) ^ e' - a ≤ 0)]
      linarith

/-- The rounding of a positive integer below `2^64`: a float64, at least as
near to the integer as any number of a mantissa of 53 bits. -/
theorem nearest_int_mag (neg : Bool) (a : Nat) (h1 : 1 ≤ a) (h2 : a < 2 ^ 64) :
    (F64.nearest neg a 1).neg = neg ∧ (F64.nearest neg a 1).mant < 2 ^ 53 ∧
    -1074 ≤ (F64.nearest neg a 1).exp ∧
    ((F64.nearest neg a 1).mant : ℚ) * (2 : ℚ) ^ (F64.nearest neg a 1).exp < 2 ^ 1024 ∧
    |((F64.nearest neg a 1).mant : ℚ) * (2 : ℚ) ^ (F64.nearest neg a 1).exp - a| ≤ a ∧
    ∀ (m' : Nat) (e' : Int), m' < 2 ^ 53 →
      |((F64.nearest neg a 1).mant : ℚ) * (2 : ℚ) ^ (F64.nearest neg a 1).exp - a|
        ≤ |(m' : ℚ) * (2 : ℚ) ^ e' - a| := by
  rcases Nat.lt_or_ge (bitLog a a) 53 with hL | hL
  · obtain ⟨hv, hn, hm, he⟩ := nearest_int_exact neg a h1 (by omega)
    have ha0 : (0 : ℚ) ≤ a := Nat.cast_nonneg a
    have ha : (a : ℚ) < 2 ^ 1024 := by
      have : (a : ℚ) < 2 ^ 64 := by exact_mod_cast h2
      exact lt_trans this (pow_lt_pow_right₀ (by norm_num) (by norm_num))
    refine ⟨hn, hm, he, ?_, ?_, ?_⟩
    · rw [hv]
      exact ha
    · rw [hv, sub_self, abs_zero]
      exact ha0
    · intro m' e' _
      rw [hv, sub_self, abs_zero]
      exact abs_nonneg _
  · exact nearest_int_round neg a h1 h2 hL

/-- The float64 that the literal of a 64-bit integer reads as is a float64
nearest to the integer. -/
theorem ofInt_nearest (n : Int) (h1 : -(2 : Int) ^ 63 ≤ n) (h2 : n < (2 : Int) ^ 64) :
    NearestFloat64 n (F64.ofInt n) := by
  unfold NearestFloat64 F64.IsFloat64
  rcases eq_or_ne n 0 with h0 | h0
  · subst h0
    have hx : F64.ofInt 0 = ⟨false, 0, 0⟩ := rfl
    rw [hx]
    refine ⟨⟨?_, ?_, ?_⟩, ?_⟩
    · show (0 : Nat) < 2 ^ 53
      norm_num
    · show (-1074 : Int) ≤ 0
      norm_num
    · show ((0 : Nat) : ℚ) * (2 : ℚ) ^ (0 : Int) < 2 ^ 1024
      rw [Nat.cast_zero, zero_mul]
      positivity
    · intro y _
      simp [F64.toRat]
  · have ha1 : 1 ≤ n.natAbs := by omega
    have ha2 : n.natAbs < 2 ^ 64 := by omega
    have key := nearest_int_mag (decide (n < 0)) n.natAbs ha1 ha2
    have hof : F64.ofInt n = F64.nearest (decide (n < 0)) n.natAbs 1 := rfl
    rw [hof]
    generalize F64.nearest (decide (n < 0)) n.natAbs 1 = x at key ⊢
    obtain ⟨hn, hm, he, hfin, hself, hnear⟩ := key
    refine ⟨⟨hm, he, hfin⟩, ?_⟩
    intro y hy
    have hY0 : (0 : ℚ) ≤ (y.mant : ℚ) * (2 : ℚ) ^ y.exp :=
      mul_nonneg (Nat.cast_nonneg _) (zpow_nonneg (by norm_num) _)
    have ha0 : (0 : ℚ) ≤ (n.natAbs : ℚ) := Nat.cast_nonneg _
    have hyn := hnear y.mant y.exp hy.1
    have hxr : x.toRat = (if x.neg then -1 else 1) * ((x.mant : ℚ) * (2 : ℚ) ^ x.exp) := rfl
    generalize (x.mant : ℚ) * (2 : ℚ) ^ x.exp = V at hself hnear hyn hfin hxr
    generalize hYdef : (y.mant : ℚ) * (2 : ℚ) ^ y.exp = Y at hY0 hyn
    have hyr : y.toRat = (if y.neg then -1 else 1) * Y := by
      rw [← hYdef]
      rfl
    have hq : ((n.natAbs : Int) : ℚ) = (n.natAbs : ℚ) := Int.cast_natCast _
    rcases lt_or_gt_of_ne h0 with hneg | hpos
    · have hcast : (n : ℚ) = -(n.natAbs : ℚ) := by
        have h3 : ((n.natAbs : Int) : ℚ) = ((-n : Int) : ℚ) :=
          congrArg Int.cast (Int.ofNat_natAbs_of_nonpos hneg.le)
        rw [hq, Int.cast_neg] at h3
        linarith
      have hxn : x.neg = true := by
        rw [hn]
        exact decide_eq_true hneg
      rw [hxr, hyr, hxn, hcast]
      simp only [if_true]
      generalize (n.natAbs : ℚ) = A at *
      have e1 : |-1 * V - -A| = |V - A| := by
        rw [← abs_neg]
        congr 1
        ring
      rw [e1]
      cases y.neg
      · simp only [Bool.false_eq_true, if_false, one_mul]
        have e3 : |Y - -A| = Y + A := by
          rw [abs_of_nonneg (by linarith)]
          ring
        rw [e3]
        linarith
      · simp only [if_true]
        have e4 : |-1 * Y - -A| = |Y - A| := by
          rw [← abs_neg]
          congr 1
          ring
        rw [e4]
        exact hyn
    · have hcast : (n : ℚ) = (n.natAbs : ℚ) := by
        have h3 : ((n.natAbs : Int) : ℚ) = ((n : Int) : ℚ) :=
          congrArg Int.cast (Int.natAbs_of_nonneg (le_of_lt hpos))
        rw [hq] at h3
        exact h3.symm
      have hxn : x.neg = false := by
        rw [hn]
        exact decide_eq_false (by omega)
      rw [hxr, hyr, hxn, hcast]
      simp only [Bool.false_eq_true, if_false, one_mul]
      generalize (n.natAbs : ℚ) = A at *
      cases y.neg
      · simp only [Bool.false_eq_true, if_false, one_mul]
        exact hyn
      · simp only [if_true]
        have e2 : |-1 * Y - A| = Y + A := by
          rw [abs_of_nonpos (by linarith)]
          ring
        rw [e2]
        linarith

mutual
/-- What the decoder gives for a payload value that serializes may come back
for it. -/
theorem isJsonImage_jsonImage :
    ∀ (v : GoValue) (j : Json), v.WF → marshalValue v = .ok j → IsJsonImage v (jsonImage v)
  | .nil, _, _, _ => rfl
  | .bool _, _, _, _ => rfl
  | .int n, _, hw, _ => by
    simp only [GoValue.WF] at hw
    exact ⟨F64.ofInt n, rfl, ofInt_nearest n hw.1 hw.2⟩
  | .float64 _, _, _, _ => rfl
  | .str _, _, _, _ => rfl
  | .slice xs, j, hw, h => by
    simp only [marshalValue] at h
    cases hm : marshalList xs with
    | error e => simp [hm] at h
    | ok js =>
      simp only [GoValue.WF] at hw
      exact ⟨jsonImageList xs, rfl, isJsonImageList_jsonImageList xs js hw hm⟩
  | .map kvs, j, hw, h => by
    simp only [marshalValue] at h
    cases hm : marshalEntries kvs with
    | error e => simp [hm] at h
    | ok ms =>
      simp only [GoValue.WF] at hw
      exact ⟨jsonImageEntries kvs, rfl, isJsonImageEntries_jsonImageEntries kvs ms hw.2 hm⟩
  | .unsupported why, j, _, h => by
    simp [marshalValue] at h
/-- What the decoder gives for the elements of a slice may come back for them. -/
theorem isJsonImageList_jsonImageList :
    ∀ (xs : List GoValue) (js : List Json), GoValue.WFList xs → marshalList xs = .ok js →
      IsJsonImageList xs (jsonImageList xs)
  | [], _, _, _ => rfl
  | x :: xs, js, hw, h => by
    simp only [marshalList] at h
    cases hx : marshalValue x with
    | error e => simp [hx] at h
    | ok j =>
      cases hm : marshalList xs with
      | error e => simp [hx, hm] at h
      | ok js' =>
        simp only [GoValue.WFList] at hw
        exact ⟨jsonImage x, jsonImageList xs, rfl, isJsonImage_jsonImage x j hw.1 hx,
          isJsonImageList_jsonImageList xs js' hw.2 hm⟩
/-- What the decoder gives for the entries of a map may come back for them. -/
theorem isJsonImageEntries_jsonImageEntries :
    ∀ (kvs : List (String × GoValue)) (ms : List (String × Json)),
      GoValue.WFEntries kvs → marshalEntries kvs = .ok ms →
      IsJsonImageEntries kvs (jsonImageEntries kvs)
  | [], _, _, _ => rfl
  | (k, x) :: kvs, ms, hw, h => by
    simp only [marshalEntries] at h
    cases hx : marshalValue x with
    | error e => simp [hx] at h
    | ok j =>
      cases hm : marshalEntries kvs with
      | error e => simp [hx, hm] at h
      | ok ms' =>
        simp only [GoValue.WFEntries] at hw
        exact ⟨jsonImage x, jsonImageEntries kvs, rfl, isJsonImage_jsonImage x j hw.1 hx,
          isJsonImageEntries_jsonImageEntries kvs ms' hw.2 hm⟩
end

/-- The entries of the map that comes back for a map field may come back for
the entries of the field. -/
theorem isJsonImageEntries_echo (name : String) (d : KeyValue) (ms : List (String × Json))
    (hw : d.WF) (h : marshalKeyValue name d = .ok ms) :
    IsJsonImageEntries (d.getD []) (d.echo.getD []) := by
  match d, hw, h with
  | none, _, _ => rfl
  | some [], _, _ => rfl
  | some (p :: kvs), hw, h =>
    simp only [marshalKeyValue] at h
    cases hm : marshalEntries (p :: kvs) with
    | error e => simp [hm] at h
    | ok js =>
      simp only [KeyValue.WF, Option.getD_some] at hw
      exact isJsonImageEntries_jsonImageEntries (p :: kvs) js hw.2 hm

/-- Strings decode into a nil `[]string` as they are. -/
theorem decodeStringList_strs :
    ∀ (l : List String), decodeStringList [] (l.map Json.str) = .ok l := by
  intro l
  induction l with
  | nil => rfl
  | cons s l ih =>
    simp only [List.map_cons, decodeStringList, List.headD_nil, decodeString, List.tail_nil, ih]

/-- The member of a map field decodes into the map that comes back. -/
theorem decodeMembers_keyValue (name : String) (d : KeyValue) (ms : List (String × Json))
    (hw : d.WF) (h : marshalKeyValue name d = .ok ms) :
    ms = [] ∧ d.echo = none ∨
    ∃ j, ms = [(name, j)] ∧ decodeKeyValue none j = .ok d.echo := by
  match d, hw, h with
  | none, _, h =>
    simp only [marshalKeyValue, Except.ok.injEq] at h
    exact Or.inl ⟨h.symm, rfl⟩
  | some [], _, h =>
    simp only [marshalKeyValue, Except.ok.injEq] at h
    exact Or.inl ⟨h.symm, rfl⟩
  | some (p :: kvs), hw, h =>
    simp only [marshalKeyValue] at h
    cases hm : marshalEntries (p :: kvs) with
    | error e => simp [hm] at h
    | ok js =>
      simp only [hm, Except.ok.injEq] at h
      simp only [KeyValue.WF, Option.getD_some] at hw
      have hk : keysIncreasing (jsonImageEntries (p :: kvs)) := by
        simpa only [keysIncreasing, jsonImageEntries_keys] using hw.1
      refine Or.inr ⟨.obj js, h.symm, ?_⟩
      rw [decodeKeyValue_obj js _ (decodeAnyMembers_marshalEntries _ js hw.2 hm),
        foldl_setKey _ [] hk (by simp)]
      rfl

/-- The members of two lists decode one list after the other. -/
theorem decodeMembers_append :
    ∀ (xs ys : List (String × Json)) (m : Message),
      m.decodeMembers (xs ++ ys) =
        match m.decodeMembers xs with
        | .ok m' => m'.decodeMembers ys
        | .error e => .error e := by
  intro xs
  induction xs with
  | nil => intro ys m; rfl
  | cons p xs ih =>
    intro ys m
    obtain ⟨k, v⟩ := p
    simp only [List.cons_append, Message.decodeMembers]
    cases m.setField k v with
    | error e => rfl
    | ok m' => exact ih ys m'

/-- The member `to` decodes into `To`. -/
theorem step_to (s : String) (a : Option (List String)) (b c : String) (d : Int) (e f : Bool)
    (g : Int) (h : String) (i : Bool) (j k : KeyValue) (rest : List (String × Json)) :
    (Message.mk "" a b c d e f g h i j k).decodeMembers
        (omitEmpty (s == "") "to" (.str s) ++ rest)
      = (Message.mk s a b c d e f g h i j k).decodeMembers rest := by
  by_cases hs : s = ""
  · subst hs
    rfl
  · have hb : (s == "") = false := by simpa using hs
    rw [hb]
    rfl

/-- The member `registration_ids` decodes into `RegistrationIDs`. -/
theorem step_registration_ids (ids : Option (List String)) (s b c : String) (d : Int)
    (e f : Bool) (g : Int) (h : String) (i : Bool) (j k : KeyValue)
    (rest : List (String × Json)) :
    (Message.mk s none b c d e f g h i j k).decodeMembers
        (omitEmpty ((ids.getD []).isEmpty) "registration_ids"
          (.arr ((ids.getD []).map Json.str)) ++ rest)
      = (Message.mk s (if (ids.getD []).isEmpty then none else ids) b c d e f g h i j
          k).decodeMembers rest := by
  cases hids : ids.getD [] with
  | nil => rfl
  | cons x xs =>
    have hsome : ids = some (x :: xs) := by
      cases ids with
      | none => simp at hids
      | some l => simpa using hids
    have hdec : decodeStrings none (.arr ((x :: xs).map Json.str)) = .ok (some (x :: xs)) := by
      simp only [decodeStrings, Option.getD_none, decodeStringList_strs]
    have hset : ∀ v, (Message.mk s none b c d e f g h i j k).setField "registration_ids" v
        = match decodeStrings none v with
          | .ok r => .ok (Message.mk s r b c d e f g h i j k)
          | .error err => .error err := fun v => rfl
    simp only [List.isEmpty_cons, omitEmpty, Bool.false_eq_true, if_false, List.cons_append,
      List.append_eq, List.nil_append, Message.decodeMembers, hset, hdec, hsome]

/-- The member `condition` decodes into `Condition`. -/
theorem step_condition (b : String) (s : String) (a : Option (List String)) (c : String)
    (d : Int) (e f : Bool) (g : Int) (h : String) (i : Bool) (j k : KeyValue)
    (rest : List (String × Json)) :
    (Message.mk s a "" c d e f g h i j k).decodeMembers
        (omitEmpty (b == "") "condition" (.str b) ++ rest)
      = (Message.mk s a b c d e f g h i j k).decodeMembers rest := by
  by_cases hs : b = ""
  · subst hs
    rfl
  · have hb : (b == "") = false := by simpa using hs
    rw [hb]
    rfl

/-- The member `collapse_key` decodes into `CollapseKey`. -/
theorem step_collapse_key (c : String) (s : String) (a : Option (List String)) (b c0 : String)
    (d : Int) (e f : Bool) (g : Int) (h : String) (i : Bool) (j k : KeyValue)
    (rest : List (String × Json)) :
    (Message.mk s a b c0 d e f g h i j k).decodeMembers
        ([("collapse_key", Json.str c)] ++ rest)
      = (Message.mk s a b c d e f g h i j k).decodeMembers rest :=
  rfl

/-- The member `priority` decodes into `Priority`. -/
theorem step_priority (d : Int) (hd : inIntRange d = true) (s : String)
    (a : Option (List String)) (b c : String) (d0 : Int) (e f : Bool) (g : Int) (h : String)
    (i : Bool) (j k : KeyValue) (rest : List (String × Json)) :
    (Message.mk s a b c d0 e f g h i j k).decodeMembers
        ([("priority", Json.num (NumLit.ofInt d))] ++ rest)
      = (Message.mk s a b c d e f g h i j k).decodeMembers rest := by
  have hset : ∀ v, (Message.mk s a b c d0 e f g h i j k).setField "priority" v
      = match decodeInt d0 v with
        | .ok r => .ok (Message.mk s a b c r e f g h i j k)
        | .error err => .error err := fun v => rfl
  simp only [List.cons_append, List.append_eq, List.nil_append, Message.decodeMembers, hset,
    decodeInt_ofInt d0 d hd]

/-- The member `content_available` decodes into `ContentAvailable`. -/
theorem step_content_available (e : Bool) (s : String) (a : Option (List String))
    (b c : String) (d : Int) (f : Bool) (g : Int) (h : String) (i : Bool) (j k : KeyValue)
    (rest : List (String × Json)) :
    (Message.mk s a b c d false f g h i j k).decodeMembers
        (omitEmpty (!e) "content_available" (.bool e) ++ rest)
      = (Message.mk s a b c d e f g h i j k).decodeMembers rest := by
  cases e <;> rfl

/-- The member `delay_while_idle` decodes into `DelayWhileIdle`. -/
theorem step_delay_while_idle (f : Bool) (s : String) (a : Option (List String))
    (b c : String) (d : Int) (e : Bool) (g : Int) (h : String) (i : Bool) (j k : KeyValue)
    (rest : List (String × Json)) :
    (Message.mk s a b c d e false g h i j k).decodeMembers
        (omitEmpty (!f) "delay_while_idle" (.bool f) ++ rest)
      = (Message.mk s a b c d e f g h i j k).decodeMembers rest := by
  cases f <;> rfl

/-- The member `time_to_live` decodes into `TimeToLive`. -/
theorem step_time_to_live (g : Int) (hg : inIntRange g = true) (s : String)
    (a : Option (List String)) (b c : String) (d : Int) (e f : Bool) (h : String) (i : Bool)
    (j k : KeyValue) (rest : List (String × Json)) :
    (Message.mk s a b c d e f 0 h i j k).decodeMembers
        (omitEmpty (g == 0) "time_to_live" (.num (NumLit.ofInt g)) ++ rest)
      = (Message.mk s a b c d e f g h i j k).decodeMembers rest := by
  by_cases hz : g = 0
  · subst hz
    rfl
  · have hb : (g == 0) = false := by simpa using hz
    have hset : ∀ v, (Message.mk s a b c d e f 0 h i j k).setField "time_to_live" v
        = match decodeInt 0 v with
          | .ok r => .ok (Message.mk s a b c d e f r h i j k)
          | .error err => .error err := fun v => rfl
    simp only [hb, omitEmpty, Bool.false_eq_true, if_false, List.cons_append, List.append_eq, List.nil_append,
      Message.decodeMembers, hset, decodeInt_ofInt 0 g hg]

/-- The member `restricted_package_name` decodes into `RestrictedPackageName`. -/
theorem step_restricted_package_name (h : String) (s : String) (a : Option (List String))
    (b c : String) (d : Int) (e f : Bool) (g : Int) (i : Bool) (j k : KeyValue)
    (rest : List (String × Json)) :
    (Message.mk s a b c d e f g "" i j k).decodeMembers
        (omitEmpty (h == "") "restricted_package_name" (.str h) ++ rest)
      = (Message.mk s a b c d e f g h i j k).decodeMembers rest := by
  by_cases hs : h = ""
  · subst hs
    rfl
  · have hb : (h == "") = false := by simpa using hs
    rw [hb]
    rfl

/-- The member `dry_run` decodes into `DryRun`. -/
theorem step_dry_run (i : Bool) (s : String) (a : Option (List String)) (b c : String)
    (d : Int) (e f : Bool) (g : Int) (h : String) (j k : KeyValue)
    (rest : List (String × Json)) :
    (Message.mk s a b c d e f g h false j k).decodeMembers
        (omitEmpty (!i) "dry_run" (.bool i) ++ rest)
      = (Message.mk s a b c d e f g h i j k).decodeMembers rest := by
  cases i <;> rfl

/-- The member `data` decodes into `Data`. -/
theorem step_data (dat : KeyValue) (ms : List (String × Json)) (hw : dat.WF)
    (hm : marshalKeyValue "data" dat = .ok ms) (s : String) (a : Option (List String))
    (b c : String) (d : Int) (e f : Bool) (g : Int) (h : String) (i : Bool) (k : KeyValue)
    (rest : List (String × Json)) :
    (Message.mk s a b c d e f g h i none k).decodeMembers (ms ++ rest)
      = (Message.mk s a b c d e f g h i dat.echo k).decodeMembers rest := by
  rcases decodeMembers_keyValue "data" dat ms hw hm with ⟨h1, h2⟩ | ⟨j, h1, h2⟩
  · rw [h1, h2]
    rfl
  · have hset : ∀ v, (Message.mk s a b c d e f g h i none k).setField "data" v
        = match decodeKeyValue none v with
          | .ok r => .ok (Message.mk s a b c d e f g h i r k)
          | .error err => .error err := fun v => rfl
    simp only [h1, List.cons_append, List.append_eq, List.nil_append, Message.decodeMembers, hset, h2]

/-- The member `notification` decodes into `Notification`. -/
theorem step_notification (dat : KeyValue) (ms : List (String × Json)) (hw : dat.WF)
    (hm : marshalKeyValue "notification" dat = .ok ms) (s : String)
    (a : Option (List String)) (b c : String) (d : Int) (e f : Bool) (g : Int) (h : String)
    (i : Bool) (j : KeyValue) :
    (Message.mk s a b c d e f g h i j none).decodeMembers ms
      = .ok (Message.mk s a b c d e f g h i j dat.echo) := by
  rcases decodeMembers_keyValue "notification" dat ms hw hm with ⟨h1, h2⟩ | ⟨v, h1, h2⟩
  · rw [h1, h2]
    rfl
  · have hset : ∀ v, (Message.mk s a b c d e f g h i j none).setField "notification" v
        = match decodeKeyValue none v with
          | .ok r => .ok (Message.mk s a b c d e f g h i j r)
          | .error err => .error err := fun v => rfl
    simp only [h1, Message.decodeMembers, hset, h2]

/-- The members json.Marshal writes for a message decode into the message that
comes back. -/
theorem decodeMembers_members (m : Message) (hw : m.WF) (ms : List (String × Json))
    (h : m.members = .ok ms) : ({} : Message).decodeMembers ms = .ok m.echo := by
  simp only [Message.members] at h
  cases hd : marshalKeyValue "data" m.Data with
  | error e => simp [hd] at h
  | ok d =>
    cases hn : marshalKeyValue "notification" m.Notification with
    | error e => simp [hd, hn] at h
    | ok n =>
      simp only [hd, hn, Except.ok.injEq] at h
      subst h
      obtain ⟨hp, ht, hwd, hwn⟩ := hw
      show (Message.mk "" none "" "" 0 false false 0 "" false none none).decodeMembers _ = _
      simp only [Message.plainMembers, List.append_assoc]
      rw [step_to, step_registration_ids, step_condition, step_collapse_key,
        step_priority _ hp, step_content_available, step_delay_while_idle,
        step_time_to_live _ ht, step_restricted_package_name, step_dry_run,
        step_data _ _ hwd hd, step_notification _ _ hwn hn]
      rfl

/-- The two map fields of a message that serializes serialize. -/
theorem members_ok (m : Message) (ms : List (String × Json)) (h : m.members = .ok ms) :
    ∃ d n, marshalKeyValue "data" m.Data = .ok d ∧
      marshalKeyValue "notification" m.Notification = .ok n := by
  simp only [Message.members] at h
  cases hd : marshalKeyValue "data" m.Data with
  | error e => simp [hd] at h
  | ok d =>
    cases hn : marshalKeyValue "notification" m.Notification with
    | error e => simp [hd, hn] at h
    | ok n => exact ⟨d, n, rfl, rfl⟩

/-- C7 (amended): for every message of valid UTF-8 strings whose payload values
are nil, booleans, integers, float64s, strings, slices and maps of such
values, and whose serialization succeeds, decoding its JSON back into a
`Message` succeeds and gives the recipient, the registration ids (when there
are any), the condition, the collapse key, the priority, the three flags, the
time to live and the restricted package name of the message, and in `Data`
and `Notification` the same keys, each with a value that may come back for
the original: nil, booleans, strings and float64s as they are, an integer as
a float64 nearest to it (no float64 is nearer), slices and maps element by
element. -/
theorem Message_round_trip (m : Message) (j : Json) (hw : m.WF)
    (h : jsonMarshal (some m) = .ok j) :
    ∃ m', decodeMessage j = .ok m' ∧
      m'.To = m.To ∧
      (m.RegistrationIDs.getD [] ≠ [] → m'.RegistrationIDs = m.RegistrationIDs) ∧
      m'.Condition = m.Condition ∧
      m'.CollapseKey = m.CollapseKey ∧
      m'.Priority = m.Priority ∧
      m'.ContentAvailable = m.ContentAvailable ∧
      m'.DelayWhileIdle = m.DelayWhileIdle ∧
      m'.TimeToLive = m.TimeToLive ∧
      m'.RestrictedPackageName = m.RestrictedPackageName ∧
      m'.DryRun = m.DryRun ∧
      IsJsonImageEntries (m.Data.getD []) (m'.Data.getD []) ∧
      IsJsonImageEntries (m.Notification.getD []) (m'.Notification.getD []) := by
  simp only [jsonMarshal] at h
  cases hm : m.members with
  | error e => simp [hm] at h
  | ok ms =>
    simp only [hm, Except.ok.injEq] at h
    subst h
    obtain ⟨d, n, hd, hn⟩ := members_ok m ms hm
    refine ⟨m.echo, decodeMembers_members m hw ms hm, rfl, ?_, rfl, rfl, rfl, rfl, rfl, rfl,
      rfl, rfl, isJsonImageEntries_echo "data" m.Data d hw.2.2.1 hd,
      isJsonImageEntries_echo "notification" m.Notification n hw.2.2.2 hn⟩
    intro hne
    have : (m.RegistrationIDs.getD []).isEmpty = false := by
      cases hl : m.RegistrationIDs.getD [] with
      | nil => exact absurd hl hne
      | cons x xs => rfl
    simp only [Message.echo, this, Bool.false_eq_true, if_false]

/-- The message of the example is one Go can hold. -/
theorem exampleMessage_WF : exampleMessage.WF := by
  refine ⟨by decide, by decide, ⟨?_, ?_⟩, ⟨?_, ?_⟩⟩
  · show List.Pairwise (fun a b => a < b) ["message", "some-var", "title"]
    decide!
  · simp only [exampleMessage, Option.getD_some, GoValue.WFEntries, GoValue.WF, and_true,
      true_and]
    constructor <;> norm_num
  · show List.Pairwise (fun a b => a < b) ([] : List String)
    exact List.Pairwise.nil
  · trivial

/-- C7 (witness): the message of `examples/message/main.go`. -/
theorem Message_round_trip_witness :
    ∃ m', decodeMessage exampleDocument = .ok m' ∧
      m'.To = exampleMessage.To ∧
      (exampleMessage.RegistrationIDs.getD [] ≠ [] →
        m'.RegistrationIDs = exampleMessage.RegistrationIDs) ∧
      m'.Condition = exampleMessage.Condition ∧
      m'.CollapseKey = exampleMessage.CollapseKey ∧
      m'.Priority = exampleMessage.Priority ∧
      m'.ContentAvailable = exampleMessage.ContentAvailable ∧
      m'.DelayWhileIdle = exampleMessage.DelayWhileIdle ∧
      m'.TimeToLive = exampleMessage.TimeToLive ∧
      m'.RestrictedPackageName = exampleMessage.RestrictedPackageName ∧
      m'.DryRun = exampleMessage.DryRun ∧
      IsJsonImageEntries (exampleMessage.Data.getD []) (m'.Data.getD []) ∧
      IsJsonImageEntries (exampleMessage.Notification.getD []) (m'.Notification.getD []) :=
  Message_round_trip exampleMessage exampleDocument exampleMessage_WF rfl
end Fcm
